import Mathlib

/-!
Shallow embedding of the tilted board layout engine (src/main.py).

Modelling conventions, applied throughout:

* Python floats are modelled as exact rationals; `math.isclose` is modelled as
  exact equality (the spec leaves the tolerance policy implementation-defined).
* Python's `ZeroDivisionError` (float division by zero), the explicit
  `ValueError` raised for non-axis-aligned segments, and the `TypeError`
  raised when iterating over `None` are modelled with the `PyError` type and
  `Except` results.
* The three geometric constants derived trigonometrically in
  `Layout.__init__` (`slope = tan(angle)`, `offset_step`,
  `board_x_half_width`) are carried as fields of the rational `Layout` state,
  so that the geometric core stays computable; the construction itself,
  including its trigonometry, is modelled separately over the reals by
  `LayoutR.init`.
* The unbounded `while True` loop of `Layout.calculate` is modelled with a
  fuel parameter; `Layout.calcLoop L fuel offset boards` returns `some` of the
  accumulated state exactly when the loop reaches its `break` within `fuel`
  iterations, and `none` when the fuel runs out first.
* Python's stable `sorted` with the float key `atan2(y - cy, x - cx)` is
  modelled by a stable insertion sort under the computable angular comparator
  `angLE`; the theorem `angLE_iff_atan2` proves that this comparator orders
  translated points exactly as the real-valued `atan2` key does.
-/

abbrev Point : Type := ℚ × ℚ

abbrev Board : Type := List Point

/-- Errors the Python runtime can raise while the engine runs: division by
zero, the explicit `ValueError` of `intersect_aa_line`, and the `TypeError`
from iterating over `None` in `_calculate_offsets`. -/
inductive PyError where
  | zeroDivisionError : PyError
  | valueError : PyError
  | typeError : PyError
deriving DecidableEq

deriving instance DecidableEq for Except

/-- Exact-arithmetic model of `math.isclose` on frame coordinates. -/
def isclose (a b : ℚ) : Bool := a == b

/-- The rectangular frame: an ordered 4-tuple of corners, as built in
`Layout.__init__` (bottom-left, bottom-right, top-right, top-left). -/
structure Frame where
  p0 : Point
  p1 : Point
  p2 : Point
  p3 : Point
deriving DecidableEq

/-- `TiltedLine`: slope and intercept of a line `y = slope * x + intercept`.
The Python constructor receives `(angle, offset)` and computes
`slope = tan(angle)`; the exact model receives the slope directly. -/
structure TiltedLine where
  slope : ℚ
  intercept : ℚ
deriving DecidableEq

/-- `TiltedLine.__init__`: `intercept = -slope * offset`, so the line passes
through `(offset, 0)`. -/
def TiltedLine.init (slope offset : ℚ) : TiltedLine :=
  { slope := slope, intercept := -slope * offset }

/-- `TiltedLine.intersect_aa_line`: intersection of the line with an
axis-aligned segment.  Vertical segments (`isclose(x1, x2)`) solve for `y`
and accept iff `y` lies in the inclusive `[min(y1,y2), max(y1,y2)]`;
horizontal segments solve `x = (y - intercept) / slope` (a division that
raises `ZeroDivisionError` when the slope is zero) and accept iff `x` lies in
the inclusive `[min(x1,x2), max(x1,x2)]`; any other segment raises
`ValueError`. -/
def TiltedLine.intersect_aa_line (l : TiltedLine) (p1 p2 : Point) :
    Except PyError (Option Point) :=
  let x1 := p1.1
  let y1 := p1.2
  let x2 := p2.1
  let y2 := p2.2
  if isclose x1 x2 then
    let x := x1
    let y := l.slope * x + l.intercept
    if min y1 y2 ≤ y ∧ y ≤ max y1 y2 then .ok (some (x, y)) else .ok none
  else if isclose y1 y2 then
    if l.slope = 0 then .error .zeroDivisionError
    else
      let y := y1
      let x := (y - l.intercept) / l.slope
      if min x1 x2 ≤ x ∧ x ≤ max x1 x2 then .ok (some (x, y)) else .ok none
  else .error .valueError

/-- `TiltedLine.intersect_frame`: intersections with the four sides of the
frame, taken in order with wrap-around; the Python generator is forced into a
list at every call site, so the model is eager. -/
def TiltedLine.intersect_frame (l : TiltedLine) (f : Frame) :
    Except PyError (List Point) := do
  let i0 ← l.intersect_aa_line f.p0 f.p1
  let i1 ← l.intersect_aa_line f.p1 f.p2
  let i2 ← l.intersect_aa_line f.p2 f.p3
  let i3 ← l.intersect_aa_line f.p3 f.p0
  return [i0, i1, i2, i3].filterMap id

/-- `TiltedLine.is_point_between_lines`: both lines' y-values are evaluated at
the point's x; the point is between iff its y lies in the inclusive
`[min(y1,y2), max(y1,y2)]`. -/
def TiltedLine.is_point_between_lines (l : TiltedLine) (point : Point)
    (other : TiltedLine) : Bool :=
  let y1 := l.slope * point.1 + l.intercept
  let y2 := other.slope * point.1 + other.intercept
  decide (min y1 y2 ≤ point.2 ∧ point.2 ≤ max y1 y2)

/-- The geometric state a `Layout` instance carries after `__init__`:
the frame dimensions and the three derived constants
`slope = tan(angle)`, `offset_step = board_width/sin(angle) +
spacing/sin(angle)` and `board_x_half_width = board_width/sin(angle)/2`,
kept as exact rationals. -/
structure Layout where
  width : ℚ
  height : ℚ
  slope : ℚ
  offset_step : ℚ
  board_x_half_width : ℚ
deriving DecidableEq

/-- The frame built in `Layout.__init__`. -/
def Layout.frame (L : Layout) : Frame :=
  { p0 := (-L.width / 2, -L.height / 2)
    p1 := (L.width / 2, -L.height / 2)
    p2 := (L.width / 2, L.height / 2)
    p3 := (-L.width / 2, L.height / 2) }

/-- Class of a translated point in the ascending order of `atan2(y, x)`:
points with `y < 0` (angles in `(-pi, 0)`), then `y = 0 ∧ 0 ≤ x` (angle `0`),
then `y > 0` (angles in `(0, pi)`), then `y = 0 ∧ x < 0` (angle `pi`). -/
def angClass (v : Point) : ℕ :=
  if v.2 < 0 then 0
  else if v.2 = 0 ∧ 0 ≤ v.1 then 1
  else if 0 < v.2 then 2
  else 3

/-- Cross product of two planar vectors. -/
def cross (a b : Point) : ℚ :=
  a.1 * b.2 - a.2 * b.1

/-- Computable comparator realising the ascending order of the sort key
`atan2(y - cy, x - cx)` used by `_sort_board_points`: compare the atan2
half-plane classes first, then the cross product within a class.
`angLE_iff_atan2` below proves the equivalence with the real atan2 key. -/
def angLE (c p q : Point) : Prop :=
  angClass (p.1 - c.1, p.2 - c.2) < angClass (q.1 - c.1, q.2 - c.2) ∨
    (angClass (p.1 - c.1, p.2 - c.2) = angClass (q.1 - c.1, q.2 - c.2) ∧
      0 ≤ cross (p.1 - c.1, p.2 - c.2) (q.1 - c.1, q.2 - c.2))

instance (c : Point) : DecidableRel (angLE c) := fun p q => by
  unfold angLE
  exact inferInstance

/-- `Layout._sort_board_points`: sort the board points by angle around the
center.  Python's `sorted` is a stable sort by the key
`atan2(y - cy, x - cx)`; the model is a stable insertion sort under the
equivalent comparator `angLE center`. -/
def Layout.sort_board_points (_L : Layout) (board : Board) (center : Point) :
    Board :=
  List.insertionSort (angLE center) board

/-- The corner-collection loop of `Layout._try_create_board`: every frame
corner lying between the two lines, in frame order. -/
def Layout.cornersBetween (L : Layout) (line1 line2 : TiltedLine) : List Point :=
  [L.frame.p0, L.frame.p1, L.frame.p2, L.frame.p3].filter
    (fun corner => line1.is_point_between_lines corner line2)

/-- `Layout._try_create_board`: build the candidate board at a signed offset,
returning `none` when both edge lines miss the frame entirely. -/
def Layout.try_create_board (L : Layout) (offset : ℚ) :
    Except PyError (Option Board) := do
  let center : Point := (offset, 0)
  let xmin := offset - L.board_x_half_width
  let xmax := offset + L.board_x_half_width
  let line1 := TiltedLine.init L.slope xmin
  let line2 := TiltedLine.init L.slope xmax
  let intersections1 ← line1.intersect_frame L.frame
  let intersections2 ← line2.intersect_frame L.frame
  if intersections1.length = 0 ∧ intersections2.length = 0 then
    return none
  else
    return some (L.sort_board_points
      (L.cornersBetween line1 line2 ++ intersections1 ++ intersections2) center)

/-- The `while True` loop of `Layout.calculate`, with fuel.  Each iteration
advances the offset by `offset_step`, tries both `+offset` and `-offset`, and
appends the pair; the first side returning `none` breaks out, returning the
boards accumulated so far.  `none` marks fuel exhaustion. -/
def Layout.calcLoop (L : Layout) :
    ℕ → ℚ → List (Option Board) → Except PyError (Option (List (Option Board)))
  | 0, _, _ => .ok none
  | n + 1, offset0, boards => do
    let board ← L.try_create_board (offset0 + L.offset_step)
    match board with
    | none => return some boards
    | some b =>
      let board2 ← L.try_create_board (-(offset0 + L.offset_step))
      match board2 with
      | none => return some boards
      | some b2 => L.calcLoop n (offset0 + L.offset_step) (boards ++ [some b, some b2])

/-- The two `Layout` subclasses differing only in `setup`. -/
inductive Variant where
  | even : Variant
  | odd : Variant
deriving DecidableEq

/-- `EvenLayout.setup` returns `-offset_step / 2` with no pre-seeded board;
`OddLayout.setup` appends the raw result of `_try_create_board(0.0)` (which
may be `None`) to the board list and returns offset `0`. -/
def Layout.setup (L : Layout) :
    Variant → Except PyError (List (Option Board) × ℚ)
  | .even => .ok ([], -L.offset_step / 2)
  | .odd => do
    let b ← L.try_create_board 0
    return ([b], 0)

/-- The board-generation phase of `Layout.calculate`: `setup` followed by the
expansion loop. -/
def Layout.calcBoards (L : Layout) (v : Variant) (fuel : ℕ) :
    Except PyError (Option (List (Option Board))) := do
  let s ← L.setup v
  L.calcLoop fuel s.2 s.1

/-- The four edge-offset accumulator lists of a `Layout` instance. -/
structure Offsets where
  top_offsets : List (ℚ × ℚ)
  bottom_offsets : List (ℚ × ℚ)
  left_offsets : List (ℚ × ℚ)
  right_offsets : List (ℚ × ℚ)
deriving DecidableEq

/-- The empty accumulators set up in `Layout.__init__`. -/
def Offsets.empty : Offsets := ⟨[], [], [], []⟩

/-- `Layout._append_offset`: record `(value, value + shift)`. -/
def append_offset (offsets : List (ℚ × ℚ)) (value shift : ℚ) :
    List (ℚ × ℚ) :=
  offsets ++ [(value, value + shift)]

/-- Body of the inner loop of `Layout._calculate_offsets`: the four
independent edge-membership tests for one vertex. -/
def Layout.offsets_for_point (L : Layout) (acc : Offsets) (p : Point) : Offsets :=
  let acc1 :=
    if isclose p.2 (-L.height / 2) then
      { acc with bottom_offsets := append_offset acc.bottom_offsets p.1 (L.width / 2) }
    else acc
  let acc2 :=
    if isclose p.2 (L.height / 2) then
      { acc1 with top_offsets := append_offset acc1.top_offsets p.1 (L.width / 2) }
    else acc1
  let acc3 :=
    if isclose p.1 (-L.width / 2) then
      { acc2 with left_offsets := append_offset acc2.left_offsets p.2 (L.height / 2) }
    else acc2
  if isclose p.1 (L.width / 2) then
    { acc3 with right_offsets := append_offset acc3.right_offsets p.2 (L.height / 2) }
  else acc3

/-- Inner loop of `Layout._calculate_offsets` over one board's vertices. -/
def Layout.offsets_for_board (L : Layout) (acc : Offsets) : Board → Offsets
  | [] => acc
  | p :: rest => L.offsets_for_board (L.offsets_for_point acc p) rest

/-- `Layout._calculate_offsets`: fold over all boards.  A `None` entry in the
board list (possible only through `OddLayout.setup`) makes the Python
`for (x, y) in board` raise a `TypeError`. -/
def Layout.calculate_offsets (L : Layout) :
    List (Option Board) → Offsets → Except PyError Offsets
  | [], acc => .ok acc
  | none :: _, _ => .error .typeError
  | some b :: rest, acc => L.calculate_offsets rest (L.offsets_for_board acc b)

/-- The state `Layout.calculate` leaves behind: the board list and the four
edge-offset lists. -/
structure LayoutResult where
  boards : List (Option Board)
  offsets : Offsets
deriving DecidableEq

/-- `Layout.calculate` with fuel: `setup`, the expansion loop, then
`_calculate_offsets`; `some` of the final state exactly when the loop breaks
within `fuel` iterations. -/
def Layout.calculateFuel (L : Layout) (v : Variant) (fuel : ℕ) :
    Except PyError (Option LayoutResult) := do
  let r ← L.calcBoards v fuel
  match r with
  | none => return none
  | some boards => do
    let offs ← L.calculate_offsets boards Offsets.empty
    return some { boards := boards, offsets := offs }

/-- The state `Layout.__init__` computes, modelled over the reals so that the
trigonometric derivation is kept: the angle in radians, the frame, and the
derived constants. -/
structure LayoutR where
  angle : ℝ
  width : ℝ
  height : ℝ
  frame : (ℝ × ℝ) × (ℝ × ℝ) × (ℝ × ℝ) × (ℝ × ℝ)
  offset_step : ℝ
  board_x_half_width : ℝ

/-- `Layout.__init__` over exact reals: convert the angle to radians, build
the frame, and derive `offset_step` and `board_x_half_width`.  The function
performs no explicit validation; the only failure is the `ZeroDivisionError`
of the divisions by `sin(angle)` when that sine is exactly zero. -/
noncomputable def LayoutR.init (width height board_width angle spacing : ℝ) :
    Except PyError LayoutR :=
  let angleRad := angle * (Real.pi / 180)
  if Real.sin angleRad = 0 then .error .zeroDivisionError
  else
    .ok { angle := angleRad
          width := width
          height := height
          frame := ((-width / 2, -height / 2), (width / 2, -height / 2),
            (width / 2, height / 2), (-width / 2, height / 2))
          offset_step := board_width / Real.sin angleRad + spacing / Real.sin angleRad
          board_x_half_width := board_width / Real.sin angleRad / 2 }

/-- The two-argument arctangent, the exact counterpart of `math.atan2`:
the angle of the point `(x, y)` in `(-pi, pi]`, with `atan2 0 0 = 0`. -/
noncomputable def atan2 (y x : ℝ) : ℝ :=
  if 0 < x then Real.arctan (y / x)
  else if x < 0 then
    (if 0 ≤ y then Real.arctan (y / x) + Real.pi else Real.arctan (y / x) - Real.pi)
  else if 0 < y then Real.pi / 2
  else if y < 0 then -(Real.pi / 2)
  else 0

/-- Point reflection through the origin, the symmetry of the generated
layouts. -/
def negPt (p : Point) : Point := (-p.1, -p.2)

/-- Closed form of the intersections of the line `y = s*x + t` with the four
sides of the frame of a positive width and height, in side order (bottom,
right, top, left); proved equal to `intersect_frame` in
`intersect_frame_closed`. -/
def frameHits (s t w h : ℚ) : List Point :=
  List.filterMap id
    [if -w / 2 ≤ (-h / 2 - t) / s ∧ (-h / 2 - t) / s ≤ w / 2
       then some ((-h / 2 - t) / s, -h / 2) else none,
     if -h / 2 ≤ s * (w / 2) + t ∧ s * (w / 2) + t ≤ h / 2
       then some (w / 2, s * (w / 2) + t) else none,
     if -w / 2 ≤ (h / 2 - t) / s ∧ (h / 2 - t) / s ≤ w / 2
       then some ((h / 2 - t) / s, h / 2) else none,
     if -h / 2 ≤ s * (-w / 2) + t ∧ s * (-w / 2) + t ≤ h / 2
       then some (-w / 2, s * (-w / 2) + t) else none]

/-! Basic helper lemmas. -/

@[simp] theorem except_bind_ok {ε α β : Type} (a : α) (f : α → Except ε β) :
    (Except.ok a >>= f : Except ε β) = f a := rfl

@[simp] theorem except_bind_error {ε α β : Type} (e : ε) (f : α → Except ε β) :
    (Except.error e >>= f : Except ε β) = Except.error e := rfl

@[simp] theorem except_pure {ε α : Type} (a : α) :
    (pure a : Except ε α) = Except.ok a := rfl

theorem isclose_iff (a b : ℚ) : isclose a b = true ↔ a = b := by
  simp [isclose]

theorem isclose_self (a : ℚ) : isclose a a = true := by
  simp [isclose]

/-! C10: the point-between-lines test is symmetric in the two lines. -/

/-- C10: for every point `p` and tilted lines `a`, `b`,
`a.is_point_between_lines p b` and `b.is_point_between_lines p a` agree,
because both compare `p`'s y against the inclusive min/max of the two lines'
y-values at `p`'s x. -/
theorem is_point_between_lines_symm (a b : TiltedLine) (p : Point) :
    a.is_point_between_lines p b = b.is_point_between_lines p a := by
  simp only [TiltedLine.is_point_between_lines]
  rw [min_comm, max_comm]

/-! C6: characterisation of `intersect_aa_line`. -/

/-- C6: for a line with nonzero slope, intersecting an axis-aligned segment
returns at most one point: a vertical segment (`x1 = x2` in the exact model of
the tolerance test) yields `(x1, slope*x1 + intercept)` iff its y lies within
the inclusive `[min(y1,y2), max(y1,y2)]`; a horizontal segment yields
`((y1 - intercept)/slope, y1)` iff its x lies within the inclusive
`[min(x1,x2), max(x1,x2)]`; a segment that is neither fails with the
`ValueError` modelling `UnsupportedGeometry`. -/
theorem intersect_aa_line_spec (l : TiltedLine) (hs : l.slope ≠ 0) (p1 p2 : Point) :
    (p1.1 = p2.1 →
      l.intersect_aa_line p1 p2 = .ok
        (if min p1.2 p2.2 ≤ l.slope * p1.1 + l.intercept ∧
            l.slope * p1.1 + l.intercept ≤ max p1.2 p2.2
         then some (p1.1, l.slope * p1.1 + l.intercept) else none)) ∧
    (p1.1 ≠ p2.1 → p1.2 = p2.2 →
      l.intersect_aa_line p1 p2 = .ok
        (if min p1.1 p2.1 ≤ (p1.2 - l.intercept) / l.slope ∧
            (p1.2 - l.intercept) / l.slope ≤ max p1.1 p2.1
         then some ((p1.2 - l.intercept) / l.slope, p1.2) else none)) ∧
    (p1.1 ≠ p2.1 → p1.2 ≠ p2.2 → l.intersect_aa_line p1 p2 = .error .valueError) := by
  refine ⟨fun hx => ?_, fun hx hy => ?_, fun hx hy => ?_⟩
  · simp only [TiltedLine.intersect_aa_line, isclose, hx, beq_self_eq_true, if_true]
    split_ifs <;> rfl
  · simp only [TiltedLine.intersect_aa_line, isclose, hy, beq_self_eq_true, beq_iff_eq,
      if_neg hx, if_true, if_neg hs]
    split_ifs <;> rfl
  · simp only [TiltedLine.intersect_aa_line, isclose, beq_iff_eq, if_neg hx, if_neg hy]

/-- Witness for C6: the vertical side `x = 1` of a unit square, intersected
with the line `y = x`, yields the single point `(1, 1)`. -/
theorem intersect_aa_line_spec_witness :
    (TiltedLine.mk 1 0).intersect_aa_line (1, -1) (1, 1) = .ok (some (1, 1)) := by
  have h := (intersect_aa_line_spec (TiltedLine.mk 1 0) (by norm_num) (1, -1) (1, 1)).1 rfl
  rw [h]
  with_unfolding_all decide

/-! C3: the no-board signal. -/

/-- Helper characterisation: the no-board signal happens exactly when both
edge lines produce zero intersections with the frame boundary. -/
theorem try_create_board_none_iff_aux (L : Layout) (offset : ℚ) :
    L.try_create_board offset = .ok none ↔
      (TiltedLine.init L.slope (offset - L.board_x_half_width)).intersect_frame
          L.frame = .ok [] ∧
        (TiltedLine.init L.slope (offset + L.board_x_half_width)).intersect_frame
          L.frame = .ok [] := by
  unfold Layout.try_create_board
  cases h1 : (TiltedLine.init L.slope (offset - L.board_x_half_width)).intersect_frame L.frame with
  | error e => simp [h1]
  | ok l1 =>
    cases h2 : (TiltedLine.init L.slope (offset + L.board_x_half_width)).intersect_frame L.frame with
    | error e => simp [h1, h2]
    | ok l2 =>
      simp only [h1, h2, except_bind_ok, Except.ok.injEq]
      by_cases hl : l1.length = 0 ∧ l2.length = 0
      · obtain ⟨n1, n2⟩ := hl
        rw [List.length_eq_zero] at n1 n2
        subst n1
        subst n2
        simp
      · rw [if_neg hl]
        constructor
        · intro h
          exact absurd h (by simp)
        · rintro ⟨ha, hb⟩
          refine absurd ⟨?_, ?_⟩ hl
          · rw [ha]
            rfl
          · rw [hb]
            rfl

/-- C3 (amended): board construction returns the no-board signal exactly when
both edge lines produce zero intersections with the frame boundary,
regardless of how many frame corners lie between the two lines; the signal is
the `Except.ok none` value, not an error. -/
theorem try_create_board_none_iff (L : Layout) (offset : ℚ) :
    L.try_create_board offset = .ok none ↔
      (TiltedLine.init L.slope (offset - L.board_x_half_width)).intersect_frame
          L.frame = .ok [] ∧
        (TiltedLine.init L.slope (offset + L.board_x_half_width)).intersect_frame
          L.frame = .ok [] :=
  try_create_board_none_iff_aux L offset

/-- Counterexample for C3 as frozen: a strip wide enough to contain the whole
frame produces zero boundary intersections but encloses all four frame
corners, and board construction still returns the no-board signal, so "zero
intersections and zero enclosed corners" is not equivalent to the signal. -/
theorem try_create_board_none_with_enclosed_corners :
    (Layout.mk 2 2 1 2001 1000).try_create_board 0 = .ok none ∧
      ((Layout.mk 2 2 1 2001 1000).cornersBetween
          (TiltedLine.init 1 (0 - 1000)) (TiltedLine.init 1 (0 + 1000))).length = 4 := by
  with_unfolding_all decide

/-! C5: the odd layout pre-seeds the raw center candidate. -/

/-- The expansion loop only ever appends to the accumulated board list. -/
theorem calcLoop_prefix (L : Layout) :
    ∀ (n : ℕ) (off : ℚ) (acc res : List (Option Board)),
      L.calcLoop n off acc = .ok (some res) → ∃ t, res = acc ++ t := by
  intro n
  induction n with
  | zero =>
    intro off acc res h
    exact absurd h (by simp [Layout.calcLoop])
  | succ n ih =>
    intro off acc res h
    unfold Layout.calcLoop at h
    cases h1 : L.try_create_board (off + L.offset_step) with
    | error e =>
      rw [h1] at h
      simp at h
    | ok b =>
      rw [h1] at h
      cases b with
      | none =>
        simp only [except_bind_ok, except_pure, Except.ok.injEq, Option.some.injEq] at h
        exact ⟨[], by simp [h]⟩
      | some b1 =>
        cases h2 : L.try_create_board (-(off + L.offset_step)) with
        | error e =>
          rw [h2] at h
          simp at h
        | ok b2 =>
          rw [h2] at h
          cases b2 with
          | none =>
            simp only [except_bind_ok, except_pure, Except.ok.injEq, Option.some.injEq] at h
            exact ⟨[], by simp [h]⟩
          | some b2 =>
            simp only [except_bind_ok] at h
            obtain ⟨t, ht⟩ := ih (off + L.offset_step) (acc ++ [some b1, some b2]) res h
            exact ⟨[some b1, some b2] ++ t, by simp [ht]⟩

/-- C5: in the odd variant the candidate board at offset `0` is added to the
board list by `setup`, before the loop starts at offset `0`, even when that
candidate is `none`; every completed run's board list starts with it. -/
theorem odd_layout_center_board_first (L : Layout) (n : ℕ)
    (res : List (Option Board)) (h : L.calcBoards .odd n = .ok (some res)) :
    ∃ r0, L.try_create_board 0 = .ok r0 ∧ L.setup .odd = .ok ([r0], 0) ∧
      res.head? = some r0 := by
  unfold Layout.calcBoards Layout.setup at h
  cases h0 : L.try_create_board 0 with
  | error e =>
    rw [h0] at h
    simp at h
  | ok r0 =>
    rw [h0] at h
    simp only [except_bind_ok, except_pure] at h
    obtain ⟨t, ht⟩ := calcLoop_prefix L n 0 [r0] res h
    refine ⟨r0, rfl, ?_, ?_⟩
    · simp [Layout.setup, h0]
    · simp [ht]

/-- Witness for C5: a configuration whose center candidate is `none` (the
board strip swallows the whole frame); the completed odd run's board list is
`[none]`, headed by that raw `None` result. -/
theorem odd_layout_center_board_first_witness :
    ∃ r0, (Layout.mk 2 2 1 2001 1000).try_create_board 0 = .ok r0 ∧
      (Layout.mk 2 2 1 2001 1000).setup .odd = .ok ([r0], 0) ∧
      ([(none : Option Board)]).head? = some r0 :=
  odd_layout_center_board_first (Layout.mk 2 2 1 2001 1000) 1 [none]
    (by with_unfolding_all decide)

/-! C1: construction performs no validation. -/

/-- C1 (amended): `Layout.__init__` performs no validation at all: whenever
`sin(radians(angle))` is exactly zero the divisions deriving `offset_step`
raise `ZeroDivisionError`, and for any other angle construction succeeds, in
particular accepting `width`, `height` or `board_width` that are zero or
negative. -/
theorem layoutR_init_no_validation (width height board_width angle spacing : ℝ) :
    (Real.sin (angle * (Real.pi / 180)) = 0 →
      LayoutR.init width height board_width angle spacing = .error .zeroDivisionError) ∧
    (Real.sin (angle * (Real.pi / 180)) ≠ 0 →
      (LayoutR.init width height board_width angle spacing).isOk = true) := by
  constructor <;> intro h <;>
    simp [LayoutR.init, h, Except.isOk, Except.toBool]

/-- Witness for C1 (amended): angle `0` raises `ZeroDivisionError`, while a
frame of width `-1` at angle `90` is accepted without any error. -/
theorem layoutR_init_no_validation_witness :
    LayoutR.init 600 400 140 0 4 = .error .zeroDivisionError ∧
      (LayoutR.init (-1) 400 140 90 4).isOk = true := by
  constructor
  · exact (layoutR_init_no_validation 600 400 140 0 4).1 (by norm_num)
  · refine (layoutR_init_no_validation (-1) 400 140 90 4).2 ?_
    have h : (90 : ℝ) * (Real.pi / 180) = Real.pi / 2 := by ring
    rw [h, Real.sin_pi_div_two]
    norm_num

/-- Counterexample for C1 as frozen: constructing a layout with
`width = -1 ≤ 0` succeeds, so invalid sizes are not rejected at construction
time. -/
theorem layoutR_init_accepts_nonpositive_width :
    (LayoutR.init (-1) 400 140 90 4).isOk = true := by
  have h : (90 : ℝ) * (Real.pi / 180) = Real.pi / 2 := by ring
  simp only [LayoutR.init, h, Real.sin_pi_div_two]
  rw [if_neg one_ne_zero]
  rfl

/-! C8: edge-offset recording. -/

theorem offsets_for_point_top (L : Layout) (acc : Offsets) (p : Point) :
    (L.offsets_for_point acc p).top_offsets =
      if p.2 = L.height / 2 then append_offset acc.top_offsets p.1 (L.width / 2)
      else acc.top_offsets := by
  simp only [Layout.offsets_for_point, isclose, beq_iff_eq]
  split_ifs <;> rfl

theorem offsets_for_point_bottom (L : Layout) (acc : Offsets) (p : Point) :
    (L.offsets_for_point acc p).bottom_offsets =
      if p.2 = -L.height / 2 then append_offset acc.bottom_offsets p.1 (L.width / 2)
      else acc.bottom_offsets := by
  simp only [Layout.offsets_for_point, isclose, beq_iff_eq]
  split_ifs <;> rfl

theorem offsets_for_point_left (L : Layout) (acc : Offsets) (p : Point) :
    (L.offsets_for_point acc p).left_offsets =
      if p.1 = -L.width / 2 then append_offset acc.left_offsets p.2 (L.height / 2)
      else acc.left_offsets := by
  simp only [Layout.offsets_for_point, isclose, beq_iff_eq]
  split_ifs <;> rfl

theorem offsets_for_point_right (L : Layout) (acc : Offsets) (p : Point) :
    (L.offsets_for_point acc p).right_offsets =
      if p.1 = L.width / 2 then append_offset acc.right_offsets p.2 (L.height / 2)
      else acc.right_offsets := by
  simp only [Layout.offsets_for_point, isclose, beq_iff_eq]
  split_ifs <;> rfl

theorem offsets_for_board_mem_generic (L : Layout) (F : Offsets → List (ℚ × ℚ))
    (hmono : ∀ acc p q, q ∈ F acc → q ∈ F (L.offsets_for_point acc p)) :
    ∀ (b : Board) (acc : Offsets) (q : ℚ × ℚ),
      q ∈ F acc → q ∈ F (L.offsets_for_board acc b) := by
  intro b
  induction b with
  | nil => intro acc q hq; exact hq
  | cons p rest ih =>
    intro acc q hq
    exact ih (L.offsets_for_point acc p) q (hmono acc p q hq)

theorem offsets_for_board_rec_generic (L : Layout) (F : Offsets → List (ℚ × ℚ))
    (trig : Point → Prop) (rec : Point → ℚ × ℚ)
    (hmono : ∀ acc p q, q ∈ F acc → q ∈ F (L.offsets_for_point acc p))
    (hrec : ∀ acc p, trig p → rec p ∈ F (L.offsets_for_point acc p)) :
    ∀ (b : Board) (acc : Offsets) (p : Point),
      p ∈ b → trig p → rec p ∈ F (L.offsets_for_board acc b) := by
  intro b
  induction b with
  | nil => intro acc p hp; exact absurd hp (List.not_mem_nil p)
  | cons p0 rest ih =>
    intro acc p hp ht
    rcases List.mem_cons.mp hp with h | h
    · subst h
      exact offsets_for_board_mem_generic L F hmono rest _ _ (hrec acc p ht)
    · exact ih (L.offsets_for_point acc p0) p h ht

theorem calculate_offsets_mem_generic (L : Layout) (F : Offsets → List (ℚ × ℚ))
    (hmono : ∀ acc p q, q ∈ F acc → q ∈ F (L.offsets_for_point acc p)) :
    ∀ (bs : List (Option Board)) (acc res : Offsets),
      L.calculate_offsets bs acc = .ok res →
        ∀ q, q ∈ F acc → q ∈ F res := by
  intro bs
  induction bs with
  | nil =>
    intro acc res h q hq
    simp only [Layout.calculate_offsets, Except.ok.injEq] at h
    rw [← h]
    exact hq
  | cons ob rest ih =>
    intro acc res h q hq
    cases ob with
    | none => exact absurd h (by simp [Layout.calculate_offsets])
    | some b =>
      exact ih (L.offsets_for_board acc b) res h q
        (offsets_for_board_mem_generic L F hmono b acc q hq)

theorem calculate_offsets_rec_generic (L : Layout) (F : Offsets → List (ℚ × ℚ))
    (trig : Point → Prop) (rec : Point → ℚ × ℚ)
    (hmono : ∀ acc p q, q ∈ F acc → q ∈ F (L.offsets_for_point acc p))
    (hrec : ∀ acc p, trig p → rec p ∈ F (L.offsets_for_point acc p)) :
    ∀ (bs : List (Option Board)) (acc res : Offsets) (b : Board) (p : Point),
      L.calculate_offsets bs acc = .ok res → some b ∈ bs → p ∈ b → trig p →
        rec p ∈ F res := by
  intro bs
  induction bs with
  | nil =>
    intro acc res b p _ hb
    exact absurd hb (List.not_mem_nil _)
  | cons ob rest ih =>
    intro acc res b p h hb hp ht
    cases ob with
    | none => exact absurd h (by simp [Layout.calculate_offsets])
    | some b0 =>
      rcases List.mem_cons.mp hb with hbb | hbb
      · have hb0 : b = b0 := Option.some.inj hbb
        subst hb0
        exact calculate_offsets_mem_generic L F hmono rest _ res h _
          (offsets_for_board_rec_generic L F trig rec hmono hrec b acc p hp ht)
      · exact ih (L.offsets_for_board acc b0) res b p h hbb hp ht

theorem top_mono (L : Layout) :
    ∀ acc p q, q ∈ Offsets.top_offsets acc →
      q ∈ Offsets.top_offsets (L.offsets_for_point acc p) := by
  intro acc p q hq
  rw [offsets_for_point_top]
  split_ifs
  · exact List.mem_append_left _ hq
  · exact hq

theorem bottom_mono (L : Layout) :
    ∀ acc p q, q ∈ Offsets.bottom_offsets acc →
      q ∈ Offsets.bottom_offsets (L.offsets_for_point acc p) := by
  intro acc p q hq
  rw [offsets_for_point_bottom]
  split_ifs
  · exact List.mem_append_left _ hq
  · exact hq

theorem left_mono (L : Layout) :
    ∀ acc p q, q ∈ Offsets.left_offsets acc →
      q ∈ Offsets.left_offsets (L.offsets_for_point acc p) := by
  intro acc p q hq
  rw [offsets_for_point_left]
  split_ifs
  · exact List.mem_append_left _ hq
  · exact hq

theorem right_mono (L : Layout) :
    ∀ acc p q, q ∈ Offsets.right_offsets acc →
      q ∈ Offsets.right_offsets (L.offsets_for_point acc p) := by
  intro acc p q hq
  rw [offsets_for_point_right]
  split_ifs
  · exact List.mem_append_left _ hq
  · exact hq

/-- C8: after `_calculate_offsets`, every board vertex lying on a frame edge
(in the exact model of the tolerance test) has the pair
`(coordinate-along-that-edge, coordinate + half-frame-extent)` recorded in
that edge's offset list: a vertex with `y = height/2` appears in
`top_offsets` as `(x, x + width/2)`, and symmetrically for the other three
edges; a vertex at a frame corner satisfies two of the conjuncts at once and
is recorded into two edge lists. -/
theorem calculate_offsets_records (L : Layout) (bs : List (Option Board))
    (acc res : Offsets) (h : L.calculate_offsets bs acc = .ok res)
    (b : Board) (hb : some b ∈ bs) (x y : ℚ) (hp : (x, y) ∈ b) :
    (y = -L.height / 2 → (x, x + L.width / 2) ∈ res.bottom_offsets) ∧
    (y = L.height / 2 → (x, x + L.width / 2) ∈ res.top_offsets) ∧
    (x = -L.width / 2 → (y, y + L.height / 2) ∈ res.left_offsets) ∧
    (x = L.width / 2 → (y, y + L.height / 2) ∈ res.right_offsets) := by
  refine ⟨fun hy => ?_, fun hy => ?_, fun hx => ?_, fun hx => ?_⟩
  · refine calculate_offsets_rec_generic L Offsets.bottom_offsets
      (fun p => p.2 = -L.height / 2) (fun p => (p.1, p.1 + L.width / 2))
      (bottom_mono L) ?_ bs acc res b (x, y) h hb hp hy
    intro acc0 p ht
    rw [offsets_for_point_bottom, if_pos ht, append_offset]
    exact List.mem_append_right _ (by simp)
  · refine calculate_offsets_rec_generic L Offsets.top_offsets
      (fun p => p.2 = L.height / 2) (fun p => (p.1, p.1 + L.width / 2))
      (top_mono L) ?_ bs acc res b (x, y) h hb hp hy
    intro acc0 p ht
    rw [offsets_for_point_top, if_pos ht, append_offset]
    exact List.mem_append_right _ (by simp)
  · refine calculate_offsets_rec_generic L Offsets.left_offsets
      (fun p => p.1 = -L.width / 2) (fun p => (p.2, p.2 + L.height / 2))
      (left_mono L) ?_ bs acc res b (x, y) h hb hp hx
    intro acc0 p ht
    rw [offsets_for_point_left, if_pos ht, append_offset]
    exact List.mem_append_right _ (by simp)
  · refine calculate_offsets_rec_generic L Offsets.right_offsets
      (fun p => p.1 = L.width / 2) (fun p => (p.2, p.2 + L.height / 2))
      (right_mono L) ?_ bs acc res b (x, y) h hb hp hx
    intro acc0 p ht
    rw [offsets_for_point_right, if_pos ht, append_offset]
    exact List.mem_append_right _ (by simp)

/-- Witness for C8: in a concrete even run on a 2 x 2 frame, the board vertex
`(1, -1)` sits at the bottom-right frame corner and is recorded in both the
bottom and the right offset lists. -/
theorem calculate_offsets_records_witness :
    ((1 : ℚ), (2 : ℚ)) ∈
        (Offsets.mk [(0, 1), (-1, 0), (-1, 0), (-1, 0)]
          [(0, 1), (1, 2), (1, 2), (1, 2)]
          [(0, 1), (1, 2), (1, 2), (1, 2)]
          [(-1, 0), (-1, 0), (-1, 0), (0, 1)]).bottom_offsets ∧
      ((-1 : ℚ), (0 : ℚ)) ∈
        (Offsets.mk [(0, 1), (-1, 0), (-1, 0), (-1, 0)]
          [(0, 1), (1, 2), (1, 2), (1, 2)]
          [(0, 1), (1, 2), (1, 2), (1, 2)]
          [(-1, 0), (-1, 0), (-1, 0), (0, 1)]).right_offsets := by
  have h := calculate_offsets_records (Layout.mk 2 2 1 3 (1/2))
    [some [(0, -1), (1, -1), (1, -1), (1, -1), (1, 0)],
      some [(-1, 0), (0, 1), (-1, 1), (-1, 1), (-1, 1)]]
    Offsets.empty
    (Offsets.mk [(0, 1), (-1, 0), (-1, 0), (-1, 0)]
      [(0, 1), (1, 2), (1, 2), (1, 2)]
      [(0, 1), (1, 2), (1, 2), (1, 2)]
      [(-1, 0), (-1, 0), (-1, 0), (0, 1)])
    (by with_unfolding_all decide)
    [(0, -1), (1, -1), (1, -1), (1, -1), (1, 0)] (by simp) 1 (-1)
    (by simp)
  constructor
  · have h1 := h.1 (by norm_num)
    simpa using h1
  · have h2 := h.2.2.2 (by norm_num)
    simpa using h2

/-! C9: the board points are sorted ascending by the atan2 key. -/

theorem div_le_div_iff_both_neg (x1 y1 x2 y2 : ℝ) (h1 : y1 < 0) (h2 : y2 < 0) :
    x2 / y2 ≤ x1 / y1 ↔ x2 * y1 ≤ x1 * y2 := by
  rw [← neg_div_neg_eq x2 y2, ← neg_div_neg_eq x1 y1,
    div_le_div_iff (neg_pos.mpr h2) (neg_pos.mpr h1)]
  constructor <;> intro h <;> nlinarith

theorem atan2_of_neg (x y : ℝ) (hy : y < 0) :
    atan2 y x = -(Real.pi / 2) - Real.arctan (x / y) := by
  unfold atan2
  rcases lt_trichotomy x 0 with hx | hx | hx
  · rw [if_neg (by linarith), if_pos hx, if_neg (by linarith)]
    have ht : 0 < x / y := div_pos_iff.mpr (Or.inr ⟨hx, hy⟩)
    have h1 : Real.arctan ((x / y)⁻¹) = Real.pi / 2 - Real.arctan (x / y) :=
      Real.arctan_inv_of_pos ht
    rw [inv_div] at h1
    rw [h1]
    ring
  · subst hx
    rw [if_neg (lt_irrefl 0), if_neg (lt_irrefl 0), if_neg (by linarith), if_pos hy]
    rw [zero_div, Real.arctan_zero]
    ring
  · rw [if_pos hx]
    have ht : x / y < 0 := div_neg_iff.mpr (Or.inl ⟨hx, hy⟩)
    have h1 : Real.arctan ((x / y)⁻¹) = -(Real.pi / 2) - Real.arctan (x / y) :=
      Real.arctan_inv_of_neg ht
    rw [inv_div] at h1
    exact h1

theorem atan2_of_pos (x y : ℝ) (hy : 0 < y) :
    atan2 y x = Real.pi / 2 - Real.arctan (x / y) := by
  unfold atan2
  rcases lt_trichotomy x 0 with hx | hx | hx
  · rw [if_neg (by linarith), if_pos hx, if_pos (by linarith)]
    have ht : x / y < 0 := div_neg_iff.mpr (Or.inr ⟨hx, hy⟩)
    have h1 : Real.arctan ((x / y)⁻¹) = -(Real.pi / 2) - Real.arctan (x / y) :=
      Real.arctan_inv_of_neg ht
    rw [inv_div] at h1
    rw [h1]
    ring
  · subst hx
    rw [if_neg (lt_irrefl 0), if_neg (lt_irrefl 0), if_pos hy]
    rw [zero_div, Real.arctan_zero]
    ring
  · rw [if_pos hx]
    have ht : 0 < x / y := div_pos hx hy
    have h1 : Real.arctan ((x / y)⁻¹) = Real.pi / 2 - Real.arctan (x / y) :=
      Real.arctan_inv_of_pos ht
    rw [inv_div] at h1
    exact h1

theorem atan2_zero_of_nonneg (x : ℝ) (hx : 0 ≤ x) : atan2 0 x = 0 := by
  unfold atan2
  rcases lt_or_eq_of_le hx with hx' | hx'
  · rw [if_pos hx', zero_div, Real.arctan_zero]
  · rw [if_neg (by rw [← hx']; exact lt_irrefl 0), if_neg (by rw [← hx']; exact lt_irrefl 0),
      if_neg (lt_irrefl 0), if_neg (lt_irrefl 0)]

theorem atan2_zero_of_neg (x : ℝ) (hx : x < 0) : atan2 0 x = Real.pi := by
  unfold atan2
  rw [if_neg (by linarith), if_pos hx, if_pos le_rfl, zero_div, Real.arctan_zero, zero_add]

theorem atan2_neg_bounds (x y : ℝ) (hy : y < 0) :
    -Real.pi < atan2 y x ∧ atan2 y x < 0 := by
  rw [atan2_of_neg x y hy]
  have h1 := Real.arctan_lt_pi_div_two (x / y)
  have h2 := Real.neg_pi_div_two_lt_arctan (x / y)
  constructor <;> linarith

theorem atan2_pos_bounds (x y : ℝ) (hy : 0 < y) :
    0 < atan2 y x ∧ atan2 y x < Real.pi := by
  rw [atan2_of_pos x y hy]
  have h1 := Real.arctan_lt_pi_div_two (x / y)
  have h2 := Real.neg_pi_div_two_lt_arctan (x / y)
  constructor <;> linarith

theorem atan2_le_iff_of_neg (xa ya xb yb : ℝ) (ha : ya < 0) (hb : yb < 0) :
    atan2 ya xa ≤ atan2 yb xb ↔ 0 ≤ xa * yb - ya * xb := by
  rw [atan2_of_neg xa ya ha, atan2_of_neg xb yb hb]
  have key : -(Real.pi / 2) - Real.arctan (xa / ya) ≤ -(Real.pi / 2) - Real.arctan (xb / yb) ↔
      Real.arctan (xb / yb) ≤ Real.arctan (xa / ya) := by
    constructor <;> intro h <;> linarith
  rw [key, Real.arctan_strictMono.le_iff_le, div_le_div_iff_both_neg xa ya xb yb ha hb]
  constructor <;> intro h <;> nlinarith

theorem atan2_le_iff_of_pos (xa ya xb yb : ℝ) (ha : 0 < ya) (hb : 0 < yb) :
    atan2 ya xa ≤ atan2 yb xb ↔ 0 ≤ xa * yb - ya * xb := by
  rw [atan2_of_pos xa ya ha, atan2_of_pos xb yb hb]
  have key : Real.pi / 2 - Real.arctan (xa / ya) ≤ Real.pi / 2 - Real.arctan (xb / yb) ↔
      Real.arctan (xb / yb) ≤ Real.arctan (xa / ya) := by
    constructor <;> intro h <;> linarith
  rw [key, Real.arctan_strictMono.le_iff_le, div_le_div_iff (by linarith : (0:ℝ) < yb) ha]
  constructor <;> intro h <;> nlinarith

theorem angClass_of_neg (v : ℚ × ℚ) (h : v.2 < 0) : angClass v = 0 := by
  unfold angClass
  rw [if_pos h]

theorem angClass_of_zero_nonneg (v : ℚ × ℚ) (h2 : v.2 = 0) (h1 : 0 ≤ v.1) :
    angClass v = 1 := by
  unfold angClass
  rw [if_neg (by rw [h2]; exact lt_irrefl 0), if_pos ⟨h2, h1⟩]

theorem angClass_of_pos (v : ℚ × ℚ) (h : 0 < v.2) : angClass v = 2 := by
  unfold angClass
  rw [if_neg (by linarith), if_neg (by rintro ⟨h2, -⟩; rw [h2] at h; exact lt_irrefl 0 h),
    if_pos h]

theorem angClass_of_zero_neg (v : ℚ × ℚ) (h2 : v.2 = 0) (h1 : v.1 < 0) :
    angClass v = 3 := by
  unfold angClass
  rw [if_neg (by rw [h2]; exact lt_irrefl 0), if_neg (by rintro ⟨-, h⟩; linarith),
    if_neg (by rw [h2]; exact lt_irrefl 0)]

theorem angLE_vec_iff (a b : ℚ × ℚ) :
    (angClass a < angClass b ∨ (angClass a = angClass b ∧ 0 ≤ cross a b)) ↔
      atan2 (a.2 : ℝ) (a.1 : ℝ) ≤ atan2 (b.2 : ℝ) (b.1 : ℝ) := by
  obtain ⟨xa, ya⟩ := a
  obtain ⟨xb, yb⟩ := b
  rcases lt_trichotomy ya 0 with hay | hay | hay
  · rcases lt_trichotomy yb 0 with hby | hby | hby
    · rw [angClass_of_neg (xa, ya) hay, angClass_of_neg (xb, yb) hby,
        atan2_le_iff_of_neg (xa : ℝ) (ya : ℝ) (xb : ℝ) (yb : ℝ)
          (by exact_mod_cast hay) (by exact_mod_cast hby)]
      simp only [lt_self_iff_false, false_or, eq_self_iff_true, true_and, cross]
      norm_cast
    · rcases le_or_lt 0 xb with hbx | hbx
      · rw [angClass_of_neg (xa, ya) hay, angClass_of_zero_nonneg (xb, yb) hby hbx]
        have hb0 : ((yb : ℝ)) = 0 := by exact_mod_cast hby
        rw [hb0, atan2_zero_of_nonneg (xb : ℝ) (by exact_mod_cast hbx)]
        have hbd := atan2_neg_bounds (xa : ℝ) (ya : ℝ) (by exact_mod_cast hay)
        constructor
        · intro _
          linarith [hbd.2]
        · intro _
          exact Or.inl (by norm_num)
      · rw [angClass_of_neg (xa, ya) hay, angClass_of_zero_neg (xb, yb) hby hbx]
        have hb0 : ((yb : ℝ)) = 0 := by exact_mod_cast hby
        rw [hb0, atan2_zero_of_neg (xb : ℝ) (by exact_mod_cast hbx)]
        have hbd := atan2_neg_bounds (xa : ℝ) (ya : ℝ) (by exact_mod_cast hay)
        constructor
        · intro _
          linarith [hbd.2, Real.pi_pos]
        · intro _
          exact Or.inl (by norm_num)
    · rw [angClass_of_neg (xa, ya) hay, angClass_of_pos (xb, yb) hby]
      have hbd := atan2_neg_bounds (xa : ℝ) (ya : ℝ) (by exact_mod_cast hay)
      have hbd2 := atan2_pos_bounds (xb : ℝ) (yb : ℝ) (by exact_mod_cast hby)
      constructor
      · intro _
        linarith [hbd.2, hbd2.1]
      · intro _
        exact Or.inl (by norm_num)
  · rcases le_or_lt 0 xa with hax | hax
    · rw [angClass_of_zero_nonneg (xa, ya) hay hax]
      have ha0 : ((ya : ℝ)) = 0 := by exact_mod_cast hay
      rw [ha0, atan2_zero_of_nonneg (xa : ℝ) (by exact_mod_cast hax)]
      rcases lt_trichotomy yb 0 with hby | hby | hby
      · rw [angClass_of_neg (xb, yb) hby]
        have hbd := atan2_neg_bounds (xb : ℝ) (yb : ℝ) (by exact_mod_cast hby)
        constructor
        · rintro (h | ⟨h, -⟩) <;> norm_num at h
        · intro h
          exfalso
          linarith [hbd.2]
      · rcases le_or_lt 0 xb with hbx | hbx
        · rw [angClass_of_zero_nonneg (xb, yb) hby hbx]
          have hb0 : ((yb : ℝ)) = 0 := by exact_mod_cast hby
          rw [hb0, atan2_zero_of_nonneg (xb : ℝ) (by exact_mod_cast hbx)]
          constructor
          · intro _
            exact le_rfl
          · intro _
            refine Or.inr ⟨rfl, ?_⟩
            simp only [cross]
            rw [hay, hby]
            ring_nf
            exact le_rfl
        · rw [angClass_of_zero_neg (xb, yb) hby hbx]
          have hb0 : ((yb : ℝ)) = 0 := by exact_mod_cast hby
          rw [hb0, atan2_zero_of_neg (xb : ℝ) (by exact_mod_cast hbx)]
          constructor
          · intro _
            linarith [Real.pi_pos]
          · intro _
            exact Or.inl (by norm_num)
      · rw [angClass_of_pos (xb, yb) hby]
        have hbd := atan2_pos_bounds (xb : ℝ) (yb : ℝ) (by exact_mod_cast hby)
        constructor
        · intro _
          linarith [hbd.1]
        · intro _
          exact Or.inl (by norm_num)
    · rw [angClass_of_zero_neg (xa, ya) hay hax]
      have ha0 : ((ya : ℝ)) = 0 := by exact_mod_cast hay
      rw [ha0, atan2_zero_of_neg (xa : ℝ) (by exact_mod_cast hax)]
      rcases lt_trichotomy yb 0 with hby | hby | hby
      · rw [angClass_of_neg (xb, yb) hby]
        have hbd := atan2_neg_bounds (xb : ℝ) (yb : ℝ) (by exact_mod_cast hby)
        constructor
        · rintro (h | ⟨h, -⟩) <;> norm_num at h
        · intro h
          exfalso
          linarith [hbd.2, Real.pi_pos]
      · rcases le_or_lt 0 xb with hbx | hbx
        · rw [angClass_of_zero_nonneg (xb, yb) hby hbx]
          have hb0 : ((yb : ℝ)) = 0 := by exact_mod_cast hby
          rw [hb0, atan2_zero_of_nonneg (xb : ℝ) (by exact_mod_cast hbx)]
          constructor
          · rintro (h | ⟨h, -⟩) <;> norm_num at h
          · intro h
            exfalso
            linarith [Real.pi_pos]
        · rw [angClass_of_zero_neg (xb, yb) hby hbx]
          have hb0 : ((yb : ℝ)) = 0 := by exact_mod_cast hby
          rw [hb0, atan2_zero_of_neg (xb : ℝ) (by exact_mod_cast hbx)]
          constructor
          · intro _
            exact le_rfl
          · intro _
            refine Or.inr ⟨rfl, ?_⟩
            simp only [cross]
            rw [hay, hby]
            ring_nf
            exact le_rfl
      · rw [angClass_of_pos (xb, yb) hby]
        have hbd := atan2_pos_bounds (xb : ℝ) (yb : ℝ) (by exact_mod_cast hby)
        constructor
        · rintro (h | ⟨h, -⟩) <;> norm_num at h
        · intro h
          exfalso
          linarith [hbd.2]
  · rw [angClass_of_pos (xa, ya) hay]
    have had := atan2_pos_bounds (xa : ℝ) (ya : ℝ) (by exact_mod_cast hay)
    rcases lt_trichotomy yb 0 with hby | hby | hby
    · rw [angClass_of_neg (xb, yb) hby]
      have hbd := atan2_neg_bounds (xb : ℝ) (yb : ℝ) (by exact_mod_cast hby)
      constructor
      · rintro (h | ⟨h, -⟩) <;> norm_num at h
      · intro h
        exfalso
        linarith [had.1, hbd.2]
    · rcases le_or_lt 0 xb with hbx | hbx
      · rw [angClass_of_zero_nonneg (xb, yb) hby hbx]
        have hb0 : ((yb : ℝ)) = 0 := by exact_mod_cast hby
        rw [hb0, atan2_zero_of_nonneg (xb : ℝ) (by exact_mod_cast hbx)]
        constructor
        · rintro (h | ⟨h, -⟩) <;> norm_num at h
        · intro h
          exfalso
          linarith [had.1]
      · rw [angClass_of_zero_neg (xb, yb) hby hbx]
        have hb0 : ((yb : ℝ)) = 0 := by exact_mod_cast hby
        rw [hb0, atan2_zero_of_neg (xb : ℝ) (by exact_mod_cast hbx)]
        constructor
        · intro _
          linarith [had.2]
        · intro _
          exact Or.inl (by norm_num)
    · rw [angClass_of_pos (xb, yb) hby,
        atan2_le_iff_of_pos (xa : ℝ) (ya : ℝ) (xb : ℝ) (yb : ℝ)
          (by exact_mod_cast hay) (by exact_mod_cast hby)]
      simp only [lt_self_iff_false, false_or, eq_self_iff_true, true_and, cross]
      norm_cast

/-- The computable comparator `angLE c` orders two points exactly as the real
sort key `atan2(y - cy, x - cx)` used by `_sort_board_points`. -/
theorem angLE_iff_atan2 (c p q : Point) :
    angLE c p q ↔
      atan2 ((p.2 - c.2 : ℚ) : ℝ) ((p.1 - c.1 : ℚ) : ℝ) ≤
        atan2 ((q.2 - c.2 : ℚ) : ℝ) ((q.1 - c.1 : ℚ) : ℝ) := by
  unfold angLE
  exact angLE_vec_iff (p.1 - c.1, p.2 - c.2) (q.1 - c.1, q.2 - c.2)

theorem angLE_total (c p q : Point) : angLE c p q ∨ angLE c q p := by
  rw [angLE_iff_atan2, angLE_iff_atan2]
  exact le_total _ _

theorem angLE_trans (c p q r : Point) :
    angLE c p q → angLE c q r → angLE c p r := by
  rw [angLE_iff_atan2, angLE_iff_atan2, angLE_iff_atan2]
  exact le_trans

theorem sort_board_points_sorted (L : Layout) (board : Board) (center : Point) :
    (L.sort_board_points board center).Pairwise (angLE center) := by
  haveI : IsTotal Point (angLE center) := ⟨angLE_total center⟩
  haveI : IsTrans Point (angLE center) := ⟨fun p q r => angLE_trans center p q r⟩
  exact List.sorted_insertionSort (angLE center) board

/-- A successful board construction returns exactly the sorted point
collection around the center `(offset, 0)`. -/
theorem try_create_board_some_eq (L : Layout) (offset : ℚ) (b : Board)
    (h : L.try_create_board offset = .ok (some b)) :
    ∃ pts, b = L.sort_board_points pts (offset, 0) := by
  simp only [Layout.try_create_board] at h
  cases h1 : (TiltedLine.init L.slope (offset - L.board_x_half_width)).intersect_frame L.frame with
  | error e =>
    rw [h1] at h
    simp at h
  | ok l1 =>
    rw [h1] at h
    cases h2 : (TiltedLine.init L.slope (offset + L.board_x_half_width)).intersect_frame L.frame with
    | error e =>
      rw [h2] at h
      simp at h
    | ok l2 =>
      rw [h2] at h
      simp only [except_bind_ok] at h
      by_cases hl : l1.length = 0 ∧ l2.length = 0
      · rw [if_pos hl] at h
        simp at h
      · rw [if_neg hl] at h
        simp only [except_pure, Except.ok.injEq, Option.some.injEq] at h
        exact ⟨_, h.symm⟩

/-- C9: every board returned by `_try_create_board` has its points in
ascending order of the sort key `atan2(y - 0, x - offset)` around the center
reference `(offset, 0)`, because construction ends by sorting the collected
corners and intersections with that key. -/
theorem try_create_board_sorted_by_atan2 (L : Layout) (offset : ℚ)
    (b : Board) (h : L.try_create_board offset = .ok (some b)) :
    b.Pairwise (fun p q =>
      atan2 ((p.2 : ℝ) - 0) ((p.1 : ℝ) - (offset : ℝ)) ≤
        atan2 ((q.2 : ℝ) - 0) ((q.1 : ℝ) - (offset : ℝ))) := by
  obtain ⟨pts, rfl⟩ := try_create_board_some_eq L offset b h
  refine List.Pairwise.imp ?_ (sort_board_points_sorted L pts (offset, 0))
  intro p q hpq
  have h2 := (angLE_iff_atan2 (offset, 0) p q).mp hpq
  push_cast at h2 ⊢
  exact h2

/-- Witness for C9: the sorted vertex list of the concrete board at offset
`3/2` in a 2 x 2 frame with slope 1. -/
theorem try_create_board_sorted_by_atan2_witness :
    ([((0 : ℚ), (-1 : ℚ)), (1, -1), (1, -1), (1, -1), (1, 0)] : Board).Pairwise
      (fun p q =>
        atan2 ((p.2 : ℝ) - 0) ((p.1 : ℝ) - ((3 / 2 : ℚ) : ℝ)) ≤
          atan2 ((q.2 : ℝ) - 0) ((q.1 : ℝ) - ((3 / 2 : ℚ) : ℝ))) :=
  try_create_board_sorted_by_atan2 (Layout.mk 2 2 1 3 (1 / 2)) (3 / 2) _
    (by with_unfolding_all decide)

/-! Closed form of the frame intersections, used for the termination and
symmetry arguments. -/

theorem intersect_aa_vertical (l : TiltedLine) (x y1 y2 : ℚ) :
    l.intersect_aa_line (x, y1) (x, y2) =
      .ok (if min y1 y2 ≤ l.slope * x + l.intercept ∧
              l.slope * x + l.intercept ≤ max y1 y2
            then some (x, l.slope * x + l.intercept) else none) := by
  simp only [TiltedLine.intersect_aa_line, isclose, beq_self_eq_true, if_true]
  split_ifs <;> rfl

theorem intersect_aa_horizontal (l : TiltedLine) (hs : l.slope ≠ 0)
    (x1 x2 y : ℚ) (hx : x1 ≠ x2) :
    l.intersect_aa_line (x1, y) (x2, y) =
      .ok (if min x1 x2 ≤ (y - l.intercept) / l.slope ∧
              (y - l.intercept) / l.slope ≤ max x1 x2
            then some ((y - l.intercept) / l.slope, y) else none) := by
  simp only [TiltedLine.intersect_aa_line, isclose, beq_iff_eq, if_neg hx,
    beq_self_eq_true, if_true, if_neg hs]
  split_ifs <;> rfl

theorem intersect_frame_init_closed (s c : ℚ) (L : Layout) (hs : s ≠ 0)
    (hw : 0 < L.width) (hh : 0 < L.height) :
    (TiltedLine.init s c).intersect_frame L.frame =
      .ok (frameHits s (-s * c) L.width L.height) := by
  have hxw : (-L.width / 2 : ℚ) ≠ L.width / 2 := by intro hq; linarith
  unfold TiltedLine.intersect_frame
  simp only [Layout.frame]
  rw [intersect_aa_horizontal (TiltedLine.init s c) hs (-L.width / 2) (L.width / 2)
      (-L.height / 2) hxw,
    intersect_aa_vertical (TiltedLine.init s c) (L.width / 2) (-L.height / 2) (L.height / 2),
    intersect_aa_horizontal (TiltedLine.init s c) hs (L.width / 2) (-L.width / 2)
      (L.height / 2) hxw.symm,
    intersect_aa_vertical (TiltedLine.init s c) (-L.width / 2) (L.height / 2) (-L.height / 2)]
  simp only [except_bind_ok, except_pure, TiltedLine.init]
  rw [min_eq_left (by linarith : (-L.width / 2 : ℚ) ≤ L.width / 2),
    max_eq_right (by linarith : (-L.width / 2 : ℚ) ≤ L.width / 2),
    min_eq_left (by linarith : (-L.height / 2 : ℚ) ≤ L.height / 2),
    max_eq_right (by linarith : (-L.height / 2 : ℚ) ≤ L.height / 2),
    min_eq_right (by linarith : (-L.width / 2 : ℚ) ≤ L.width / 2),
    max_eq_left (by linarith : (-L.width / 2 : ℚ) ≤ L.width / 2),
    min_eq_right (by linarith : (-L.height / 2 : ℚ) ≤ L.height / 2),
    max_eq_left (by linarith : (-L.height / 2 : ℚ) ≤ L.height / 2)]
  rfl

theorem filterMap_id_four (o1 o2 o3 o4 : Option Point) :
    List.filterMap id [o1, o2, o3, o4] =
      o1.toList ++ o2.toList ++ o3.toList ++ o4.toList := by
  cases o1 <;> cases o2 <;> cases o3 <;> cases o4 <;> rfl

theorem option_toList_map (f : Point → Point) (o : Option Point) :
    (Option.map f o).toList = o.toList.map f := by
  cases o <;> rfl

theorem frameHits_neg (s t w h : ℚ) :
    (frameHits s (-t) w h).Perm ((frameHits s t w h).map negPt) := by
  have e1 : ((-h / 2 - -t) / s : ℚ) = -((h / 2 - t) / s) := by ring
  have e2 : ((h / 2 - -t) / s : ℚ) = -((-h / 2 - t) / s) := by ring
  have hb : (if -w / 2 ≤ (-h / 2 - -t) / s ∧ (-h / 2 - -t) / s ≤ w / 2
        then some (((-h / 2 - -t) / s : ℚ), (-h / 2 : ℚ)) else none) =
      Option.map negPt (if -w / 2 ≤ (h / 2 - t) / s ∧ (h / 2 - t) / s ≤ w / 2
        then some (((h / 2 - t) / s : ℚ), (h / 2 : ℚ)) else none) := by
    rw [e1]
    by_cases hc : -w / 2 ≤ (h / 2 - t) / s ∧ (h / 2 - t) / s ≤ w / 2
    · rw [if_pos hc, if_pos ⟨by linarith [hc.2], by linarith [hc.1]⟩]
      simp only [Option.map_some', negPt, Option.some.injEq, Prod.mk.injEq]
      constructor <;> ring
    · rw [if_neg (by rintro ⟨h1, h2⟩; exact hc ⟨by linarith, by linarith⟩), if_neg hc]
      rfl
  have hr : (if -h / 2 ≤ s * (w / 2) + -t ∧ s * (w / 2) + -t ≤ h / 2
        then some ((w / 2 : ℚ), (s * (w / 2) + -t : ℚ)) else none) =
      Option.map negPt (if -h / 2 ≤ s * (-w / 2) + t ∧ s * (-w / 2) + t ≤ h / 2
        then some ((-w / 2 : ℚ), (s * (-w / 2) + t : ℚ)) else none) := by
    have e3 : (s * (w / 2) + -t : ℚ) = -(s * (-w / 2) + t) := by ring
    rw [e3]
    by_cases hc : -h / 2 ≤ s * (-w / 2) + t ∧ s * (-w / 2) + t ≤ h / 2
    · rw [if_pos ⟨by linarith [hc.2], by linarith [hc.1]⟩, if_pos hc]
      simp only [Option.map_some', negPt, Option.some.injEq, Prod.mk.injEq]
      constructor <;> ring
    · rw [if_neg (by rintro ⟨h1, h2⟩; exact hc ⟨by linarith, by linarith⟩), if_neg hc]
      rfl
  have ht : (if -w / 2 ≤ (h / 2 - -t) / s ∧ (h / 2 - -t) / s ≤ w / 2
        then some (((h / 2 - -t) / s : ℚ), (h / 2 : ℚ)) else none) =
      Option.map negPt (if -w / 2 ≤ (-h / 2 - t) / s ∧ (-h / 2 - t) / s ≤ w / 2
        then some (((-h / 2 - t) / s : ℚ), (-h / 2 : ℚ)) else none) := by
    rw [e2]
    by_cases hc : -w / 2 ≤ (-h / 2 - t) / s ∧ (-h / 2 - t) / s ≤ w / 2
    · rw [if_pos ⟨by linarith [hc.2], by linarith [hc.1]⟩, if_pos hc]
      simp only [Option.map_some', negPt, Option.some.injEq, Prod.mk.injEq]
      constructor <;> ring
    · rw [if_neg (by rintro ⟨h1, h2⟩; exact hc ⟨by linarith, by linarith⟩), if_neg hc]
      rfl
  have hl : (if -h / 2 ≤ s * (-w / 2) + -t ∧ s * (-w / 2) + -t ≤ h / 2
        then some ((-w / 2 : ℚ), (s * (-w / 2) + -t : ℚ)) else none) =
      Option.map negPt (if -h / 2 ≤ s * (w / 2) + t ∧ s * (w / 2) + t ≤ h / 2
        then some ((w / 2 : ℚ), (s * (w / 2) + t : ℚ)) else none) := by
    have e4 : (s * (-w / 2) + -t : ℚ) = -(s * (w / 2) + t) := by ring
    rw [e4]
    by_cases hc : -h / 2 ≤ s * (w / 2) + t ∧ s * (w / 2) + t ≤ h / 2
    · rw [if_pos ⟨by linarith [hc.2], by linarith [hc.1]⟩, if_pos hc]
      simp only [Option.map_some', negPt, Option.some.injEq, Prod.mk.injEq]
      constructor <;> ring
    · rw [if_neg (by rintro ⟨h1, h2⟩; exact hc ⟨by linarith, by linarith⟩), if_neg hc]
      rfl
  unfold frameHits
  rw [filterMap_id_four, filterMap_id_four, hb, hr, ht, hl,
    option_toList_map, option_toList_map, option_toList_map, option_toList_map,
    List.map_append, List.map_append, List.map_append]
  generalize (Option.toList (if -w / 2 ≤ (-h / 2 - t) / s ∧ (-h / 2 - t) / s ≤ w / 2
    then some (((-h / 2 - t) / s : ℚ), (-h / 2 : ℚ)) else none)).map negPt = A1
  generalize (Option.toList (if -h / 2 ≤ s * (w / 2) + t ∧ s * (w / 2) + t ≤ h / 2
    then some ((w / 2 : ℚ), (s * (w / 2) + t : ℚ)) else none)).map negPt = A2
  generalize (Option.toList (if -w / 2 ≤ (h / 2 - t) / s ∧ (h / 2 - t) / s ≤ w / 2
    then some (((h / 2 - t) / s : ℚ), (h / 2 : ℚ)) else none)).map negPt = A3
  generalize (Option.toList (if -h / 2 ≤ s * (-w / 2) + t ∧ s * (-w / 2) + t ≤ h / 2
    then some ((-w / 2 : ℚ), (s * (-w / 2) + t : ℚ)) else none)).map negPt = A4
  have e5 : A3 ++ A4 ++ A1 ++ A2 = (A3 ++ A4) ++ (A1 ++ A2) := by
    rw [List.append_assoc]
  have e6 : A1 ++ A2 ++ A3 ++ A4 = (A1 ++ A2) ++ (A3 ++ A4) := by
    rw [List.append_assoc]
  rw [e5, e6]
  exact List.perm_append_comm

theorem frameHits_empty_of_far (s c w h : ℚ) (hs : s ≠ 0) (hw : 0 < w)
    (hh : 0 < h) (hc : w / 2 + h / 2 / |s| < |c|) :
    frameHits s (-s * c) w h = [] := by
  have hsa : 0 < |s| := abs_pos.mpr hs
  have habs : |(h / 2 : ℚ) / s| = (h / 2) / |s| := by
    rw [abs_div, abs_of_pos (by linarith : (0 : ℚ) < h / 2)]
  have hcb : ¬(-w / 2 ≤ (-h / 2 - -s * c) / s ∧ (-h / 2 - -s * c) / s ≤ w / 2) := by
    rintro ⟨h1, h2⟩
    have hx : |(-h / 2 - -s * c) / s| ≤ w / 2 := abs_le.mpr ⟨by linarith, h2⟩
    have hrel : c = (-h / 2 - -s * c) / s + h / 2 / s := by
      field_simp
      ring
    have hb2 : |c| ≤ w / 2 + h / 2 / |s| := by
      calc |c| = |(-h / 2 - -s * c) / s + h / 2 / s| := by rw [← hrel]
        _ ≤ |(-h / 2 - -s * c) / s| + |(h / 2 : ℚ) / s| := abs_add _ _
        _ ≤ w / 2 + h / 2 / |s| := by rw [habs]; linarith
    linarith
  have hct : ¬(-w / 2 ≤ (h / 2 - -s * c) / s ∧ (h / 2 - -s * c) / s ≤ w / 2) := by
    rintro ⟨h1, h2⟩
    have hx : |(h / 2 - -s * c) / s| ≤ w / 2 := abs_le.mpr ⟨by linarith, h2⟩
    have hrel : c = (h / 2 - -s * c) / s - h / 2 / s := by
      field_simp
      ring
    have hb2 : |c| ≤ w / 2 + h / 2 / |s| := by
      calc |c| = |(h / 2 - -s * c) / s - h / 2 / s| := by rw [← hrel]
        _ ≤ |(h / 2 - -s * c) / s| + |(h / 2 : ℚ) / s| := abs_sub _ _
        _ ≤ w / 2 + h / 2 / |s| := by rw [habs]; linarith
    linarith
  have hcr : ¬(-h / 2 ≤ s * (w / 2) + -s * c ∧ s * (w / 2) + -s * c ≤ h / 2) := by
    rintro ⟨h1, h2⟩
    have hy : |s * (w / 2) + -s * c| ≤ h / 2 := abs_le.mpr ⟨by linarith, h2⟩
    have he : (s * (w / 2) + -s * c : ℚ) = s * (w / 2 - c) := by ring
    rw [he, abs_mul] at hy
    have hy2 : |w / 2 - c| ≤ h / 2 / |s| := by
      rw [le_div_iff hsa]
      calc |w / 2 - c| * |s| = |s| * |w / 2 - c| := by ring
        _ ≤ h / 2 := hy
    have hb2 : |c| ≤ w / 2 + h / 2 / |s| := by
      calc |c| = |(c - w / 2) + w / 2| := by ring_nf
        _ ≤ |c - w / 2| + |(w / 2 : ℚ)| := abs_add _ _
        _ = |w / 2 - c| + w / 2 := by
            rw [abs_sub_comm, abs_of_pos (by linarith : (0 : ℚ) < w / 2)]
        _ ≤ h / 2 / |s| + w / 2 := by linarith
        _ = w / 2 + h / 2 / |s| := by ring
    linarith
  have hcl : ¬(-h / 2 ≤ s * (-w / 2) + -s * c ∧ s * (-w / 2) + -s * c ≤ h / 2) := by
    rintro ⟨h1, h2⟩
    have hy : |s * (-w / 2) + -s * c| ≤ h / 2 := abs_le.mpr ⟨by linarith, h2⟩
    have he : (s * (-w / 2) + -s * c : ℚ) = s * (-(w / 2) - c) := by ring
    rw [he, abs_mul] at hy
    have hy2 : |-(w / 2) - c| ≤ h / 2 / |s| := by
      rw [le_div_iff hsa]
      calc |-(w / 2) - c| * |s| = |s| * |-(w / 2) - c| := by ring
        _ ≤ h / 2 := hy
    have hb2 : |c| ≤ w / 2 + h / 2 / |s| := by
      calc |c| = |(c + w / 2) + -(w / 2)| := by ring_nf
        _ ≤ |c + w / 2| + |(-(w / 2) : ℚ)| := abs_add _ _
        _ = |-(w / 2) - c| + w / 2 := by
            rw [abs_neg, show (c + w / 2 : ℚ) = -(-(w / 2) - c) by ring, abs_neg,
              abs_of_pos (by linarith : (0 : ℚ) < w / 2)]
        _ ≤ h / 2 / |s| + w / 2 := by linarith
        _ = w / 2 + h / 2 / |s| := by ring
    linarith
  unfold frameHits
  rw [if_neg hcb, if_neg hcr, if_neg hct, if_neg hcl]
  rfl

/-- For a nonzero slope and a positive frame, board construction never
raises: the candidate at any offset is either a board or the no-board
signal. -/
theorem try_create_board_ok (L : Layout) (hs : L.slope ≠ 0) (hw : 0 < L.width)
    (hh : 0 < L.height) (offset : ℚ) :
    ∃ r, L.try_create_board offset = .ok r := by
  simp only [Layout.try_create_board]
  rw [intersect_frame_init_closed L.slope (offset - L.board_x_half_width) L hs hw hh,
    intersect_frame_init_closed L.slope (offset + L.board_x_half_width) L hs hw hh]
  simp only [except_bind_ok]
  by_cases hc :
    (frameHits L.slope (-L.slope * (offset - L.board_x_half_width)) L.width L.height).length = 0 ∧
      (frameHits L.slope (-L.slope * (offset + L.board_x_half_width)) L.width L.height).length = 0
  · rw [if_pos hc]
    exact ⟨none, rfl⟩
  · rw [if_neg hc]
    exact ⟨some _, rfl⟩

/-- Far beyond the frame, board construction returns the no-board signal. -/
theorem try_create_board_far (L : Layout) (hs : L.slope ≠ 0) (hw : 0 < L.width)
    (hh : 0 < L.height) (offset : ℚ)
    (hfar : L.width / 2 + L.height / 2 / |L.slope| + |L.board_x_half_width| < |offset|) :
    L.try_create_board offset = .ok none := by
  rw [try_create_board_none_iff_aux]
  have h1 : L.width / 2 + L.height / 2 / |L.slope| < |offset - L.board_x_half_width| := by
    have := abs_sub_abs_le_abs_sub offset L.board_x_half_width
    linarith
  have h2 : L.width / 2 + L.height / 2 / |L.slope| < |offset + L.board_x_half_width| := by
    have h3 : |offset| - |L.board_x_half_width| ≤ |offset + L.board_x_half_width| := by
      have := abs_add (offset + L.board_x_half_width) (-L.board_x_half_width)
      simp only [add_neg_cancel_right, abs_neg] at this
      linarith
    linarith
  constructor
  · rw [intersect_frame_init_closed L.slope (offset - L.board_x_half_width) L hs hw hh,
      frameHits_empty_of_far L.slope (offset - L.board_x_half_width) L.width L.height hs hw hh h1]
  · rw [intersect_frame_init_closed L.slope (offset + L.board_x_half_width) L hs hw hh,
      frameHits_empty_of_far L.slope (offset + L.board_x_half_width) L.width L.height hs hw hh h2]

/-! C2: termination of `calculate`. -/

theorem calcLoop_all_some (L : Layout) :
    ∀ (n : ℕ) (off : ℚ) (acc res : List (Option Board)),
      L.calcLoop n off acc = .ok (some res) → (∀ x ∈ acc, x ≠ none) →
        ∀ x ∈ res, x ≠ none := by
  intro n
  induction n with
  | zero =>
    intro off acc res h
    exact absurd h (by simp [Layout.calcLoop])
  | succ n ih =>
    intro off acc res h hacc
    unfold Layout.calcLoop at h
    cases h1 : L.try_create_board (off + L.offset_step) with
    | error e =>
      rw [h1] at h
      simp at h
    | ok b =>
      rw [h1] at h
      cases b with
      | none =>
        simp only [except_bind_ok, except_pure, Except.ok.injEq, Option.some.injEq] at h
        rw [← h]
        exact hacc
      | some b1 =>
        cases h2 : L.try_create_board (-(off + L.offset_step)) with
        | error e =>
          rw [h2] at h
          simp at h
        | ok b2 =>
          rw [h2] at h
          cases b2 with
          | none =>
            simp only [except_bind_ok, except_pure, Except.ok.injEq, Option.some.injEq] at h
            rw [← h]
            exact hacc
          | some b2 =>
            simp only [except_bind_ok] at h
            refine ih (off + L.offset_step) (acc ++ [some b1, some b2]) res h ?_
            intro x hx
            rcases List.mem_append.mp hx with hx | hx
            · exact hacc x hx
            · simp only [List.mem_cons, List.mem_singleton, List.not_mem_nil,
                or_false] at hx
              rcases hx with rfl | rfl <;> simp

theorem calculate_offsets_ok (L : Layout) :
    ∀ (bs : List (Option Board)), (∀ x ∈ bs, x ≠ none) →
      ∀ acc, ∃ offs, L.calculate_offsets bs acc = .ok offs := by
  intro bs
  induction bs with
  | nil =>
    intro _ acc
    exact ⟨acc, rfl⟩
  | cons ob rest ih =>
    intro hbs acc
    cases ob with
    | none => exact absurd rfl (hbs none (by simp))
    | some b =>
      obtain ⟨offs, hoffs⟩ := ih (fun x hx => hbs x (List.mem_cons_of_mem _ hx))
        (L.offsets_for_board acc b)
      exact ⟨offs, hoffs⟩

theorem calcLoop_term_aux (L : Layout) (hs : L.slope ≠ 0) (hw : 0 < L.width)
    (hh : 0 < L.height) (hstep : 0 < L.offset_step) :
    ∀ (k : ℕ) (off : ℚ) (acc : List (Option Board)),
      L.width / 2 + L.height / 2 / |L.slope| + |L.board_x_half_width| <
          off + (k : ℚ) * L.offset_step →
      ∃ n r, L.calcLoop n off acc = .ok (some r) := by
  have hB : 0 < L.width / 2 + L.height / 2 / |L.slope| + |L.board_x_half_width| := by
    have h1 : 0 < L.height / 2 / |L.slope| :=
      div_pos (by linarith) (abs_pos.mpr hs)
    have h2 : 0 ≤ |L.board_x_half_width| := abs_nonneg _
    linarith
  intro k
  induction k with
  | zero =>
    intro off acc hk
    push_cast at hk
    have hoff : L.width / 2 + L.height / 2 / |L.slope| + |L.board_x_half_width| < off := by
      linarith
    have hfar : L.try_create_board (off + L.offset_step) = .ok none := by
      refine try_create_board_far L hs hw hh _ ?_
      rw [abs_of_pos (by linarith : (0 : ℚ) < off + L.offset_step)]
      linarith
    refine ⟨1, acc, ?_⟩
    simp [Layout.calcLoop, hfar]
  | succ k ih =>
    intro off acc hk
    push_cast at hk
    obtain ⟨r, hr⟩ := try_create_board_ok L hs hw hh (off + L.offset_step)
    cases r with
    | none =>
      refine ⟨1, acc, ?_⟩
      simp [Layout.calcLoop, hr]
    | some b =>
      obtain ⟨r2, hr2⟩ := try_create_board_ok L hs hw hh (-(off + L.offset_step))
      cases r2 with
      | none =>
        refine ⟨1, acc, ?_⟩
        unfold Layout.calcLoop
        rw [hr]
        simp only [except_bind_ok]
        rw [hr2]
        rfl
      | some b2 =>
        obtain ⟨n, r, hn⟩ := ih (off + L.offset_step) (acc ++ [some b, some b2])
          (by push_cast; linarith)
        refine ⟨n + 1, r, ?_⟩
        unfold Layout.calcLoop
        rw [hr]
        simp only [except_bind_ok]
        rw [hr2]
        simp only [except_bind_ok]
        exact hn

theorem calcLoop_term_aux_neg (L : Layout) (hs : L.slope ≠ 0) (hw : 0 < L.width)
    (hh : 0 < L.height) (hstep : L.offset_step < 0) :
    ∀ (k : ℕ) (off : ℚ) (acc : List (Option Board)),
      off + (k : ℚ) * L.offset_step <
          -(L.width / 2 + L.height / 2 / |L.slope| + |L.board_x_half_width|) →
      ∃ n r, L.calcLoop n off acc = .ok (some r) := by
  have hB : 0 < L.width / 2 + L.height / 2 / |L.slope| + |L.board_x_half_width| := by
    have h1 : 0 < L.height / 2 / |L.slope| :=
      div_pos (by linarith) (abs_pos.mpr hs)
    have h2 : 0 ≤ |L.board_x_half_width| := abs_nonneg _
    linarith
  intro k
  induction k with
  | zero =>
    intro off acc hk
    push_cast at hk
    have hoff : off < -(L.width / 2 + L.height / 2 / |L.slope| +
        |L.board_x_half_width|) := by
      linarith
    have hfar : L.try_create_board (off + L.offset_step) = .ok none := by
      refine try_create_board_far L hs hw hh _ ?_
      rw [abs_of_neg (by linarith : off + L.offset_step < 0)]
      linarith
    refine ⟨1, acc, ?_⟩
    simp [Layout.calcLoop, hfar]
  | succ k ih =>
    intro off acc hk
    push_cast at hk
    obtain ⟨r, hr⟩ := try_create_board_ok L hs hw hh (off + L.offset_step)
    cases r with
    | none =>
      refine ⟨1, acc, ?_⟩
      simp [Layout.calcLoop, hr]
    | some b =>
      obtain ⟨r2, hr2⟩ := try_create_board_ok L hs hw hh (-(off + L.offset_step))
      cases r2 with
      | none =>
        refine ⟨1, acc, ?_⟩
        unfold Layout.calcLoop
        rw [hr]
        simp only [except_bind_ok]
        rw [hr2]
        rfl
      | some b2 =>
        obtain ⟨n, r, hn⟩ := ih (off + L.offset_step) (acc ++ [some b, some b2])
          (by push_cast; linarith)
        refine ⟨n + 1, r, ?_⟩
        unfold Layout.calcLoop
        rw [hr]
        simp only [except_bind_ok]
        rw [hr2]
        simp only [except_bind_ok]
        exact hn

theorem calcLoop_terminates (L : Layout) (hs : L.slope ≠ 0) (hw : 0 < L.width)
    (hh : 0 < L.height) (hstep : L.offset_step ≠ 0) (off : ℚ)
    (acc : List (Option Board)) :
    ∃ n r, L.calcLoop n off acc = .ok (some r) := by
  rcases hstep.lt_or_lt with hneg | hpos
  · obtain ⟨k, hk⟩ := exists_nat_gt
      ((off + (L.width / 2 + L.height / 2 / |L.slope| + |L.board_x_half_width|)) /
        (-L.offset_step))
    refine calcLoop_term_aux_neg L hs hw hh hneg k off acc ?_
    have h2 := (div_lt_iff (by linarith : (0 : ℚ) < -L.offset_step)).mp hk
    linarith
  · obtain ⟨k, hk⟩ := exists_nat_gt
      ((L.width / 2 + L.height / 2 / |L.slope| + |L.board_x_half_width| - off) /
        L.offset_step)
    refine calcLoop_term_aux L hs hw hh hpos k off acc ?_
    have h2 := (div_lt_iff hpos).mp hk
    linarith

/-- C2 (amended): for every configuration with nonzero slope, positive frame
dimensions and nonzero offset step (every valid configuration yields these:
its sine is nonzero, so the step `(board_width + spacing)/sin(angle)` is
nonzero of either sign), the expansion loop always reaches its break, because
the offset moves by the fixed step in one direction until both candidate
strips leave the finite frame; the even-variant `calculate` therefore
terminates with a finite board list, and the odd variant does too unless its
pre-seeded center candidate is `None`, in which case `calculate` terminates
with the `TypeError` raised by the offset pass over that `None` entry. -/
theorem calculate_terminates (L : Layout) (hs : L.slope ≠ 0) (hw : 0 < L.width)
    (hh : 0 < L.height) (hstep : L.offset_step ≠ 0) :
    (∃ n res, L.calculateFuel .even n = .ok (some res)) ∧
    (∃ n, (∃ res, L.calculateFuel .odd n = .ok (some res)) ∨
      L.calculateFuel .odd n = .error .typeError) := by
  constructor
  · obtain ⟨n, boards, hloop⟩ := calcLoop_terminates L hs hw hh hstep
      (-L.offset_step / 2) []
    have hsome : ∀ x ∈ boards, x ≠ none :=
      calcLoop_all_some L n _ [] boards hloop (by simp)
    obtain ⟨offs, hoffs⟩ := calculate_offsets_ok L boards hsome Offsets.empty
    refine ⟨n, ⟨boards, offs⟩, ?_⟩
    unfold Layout.calculateFuel Layout.calcBoards Layout.setup
    simp only [except_bind_ok]
    rw [hloop]
    simp only [except_bind_ok]
    rw [hoffs]
    rfl
  · obtain ⟨r0, hr0⟩ := try_create_board_ok L hs hw hh 0
    cases r0 with
    | some b0 =>
      obtain ⟨n, boards, hloop⟩ := calcLoop_terminates L hs hw hh hstep 0 [some b0]
      have hsome : ∀ x ∈ boards, x ≠ none :=
        calcLoop_all_some L n 0 [some b0] boards hloop (by simp)
      obtain ⟨offs, hoffs⟩ := calculate_offsets_ok L boards hsome Offsets.empty
      refine ⟨n, Or.inl ⟨⟨boards, offs⟩, ?_⟩⟩
      unfold Layout.calculateFuel Layout.calcBoards Layout.setup
      rw [hr0]
      simp only [except_bind_ok, except_pure]
      rw [hloop]
      simp only [except_bind_ok]
      rw [hoffs]
      rfl
    | none =>
      obtain ⟨n, boards, hloop⟩ := calcLoop_terminates L hs hw hh hstep 0 [none]
      obtain ⟨t, ht⟩ := calcLoop_prefix L n 0 [none] boards hloop
      refine ⟨n, Or.inr ?_⟩
      unfold Layout.calculateFuel Layout.calcBoards Layout.setup
      rw [hr0]
      simp only [except_bind_ok, except_pure]
      rw [hloop]
      simp only [except_bind_ok]
      rw [ht]
      rfl

/-- Witness for C2 (amended): a concrete 2 x 2 layout with a negative-sine
angle (slope -1, step -3, half-width -1/2, as an angle of 225 degrees
derives), where the offset step is negative and the loop still
terminates. -/
theorem calculate_terminates_witness :
    (∃ n res,
      (Layout.mk 2 2 (-1) (-3) (-1 / 2)).calculateFuel .even n = .ok (some res)) ∧
    (∃ n, (∃ res,
        (Layout.mk 2 2 (-1) (-3) (-1 / 2)).calculateFuel .odd n = .ok (some res)) ∨
      (Layout.mk 2 2 (-1) (-3) (-1 / 2)).calculateFuel .odd n = .error .typeError) :=
  calculate_terminates (Layout.mk 2 2 (-1) (-3) (-1 / 2))
    (by with_unfolding_all decide) (by with_unfolding_all decide)
    (by with_unfolding_all decide) (by with_unfolding_all decide)

/-- Counterexample for C2 as frozen: in the odd variant of a valid
configuration whose board strip swallows the whole frame, `calculate` never
produces a board list at any fuel, because the pre-seeded `None` center
candidate makes the offset pass raise a `TypeError`. -/
theorem calculate_odd_never_produces_list :
    ¬ ∃ n res, (Layout.mk 2 2 1 2001 1000).calculateFuel .odd n = .ok (some res) := by
  rintro ⟨n, res, h⟩
  have h0 : (Layout.mk 2 2 1 2001 1000).try_create_board 0 = .ok none := by
    with_unfolding_all decide
  have h1 : (Layout.mk 2 2 1 2001 1000).try_create_board
      (0 + (Layout.mk 2 2 1 2001 1000).offset_step) = .ok none := by
    with_unfolding_all decide
  cases n with
  | zero =>
    unfold Layout.calculateFuel Layout.calcBoards Layout.setup at h
    rw [h0] at h
    simp [Layout.calcLoop] at h
  | succ n =>
    unfold Layout.calculateFuel Layout.calcBoards Layout.setup at h
    rw [h0] at h
    simp only [except_bind_ok, except_pure] at h
    unfold Layout.calcLoop at h
    rw [h1] at h
    simp [Layout.calculate_offsets] at h

/-! C7: boards beyond the seed are kept only in symmetric pairs. -/

/-- C7: whatever the expansion loop appends beyond the initial accumulator
consists exactly of symmetric pairs: iteration `j` (at offset
`off + (j+1)*offset_step`) contributes the board at `+offset` immediately
followed by the board at `-offset`, both sides having succeeded; and the loop
stopped at the first iteration where a side failed (either the first side, or
the first succeeding and the second failing), appending neither board of that
iteration. -/
theorem calcLoop_pairs (L : Layout) :
    ∀ (n : ℕ) (off : ℚ) (acc res : List (Option Board)),
      L.calcLoop n off acc = .ok (some res) →
      ∃ (t : List (Option Board)) (m : ℕ), res = acc ++ t ∧ t.length = 2 * m ∧
        (∀ j < m, ∃ b b2,
          L.try_create_board (off + ((j : ℚ) + 1) * L.offset_step) = .ok (some b) ∧
          L.try_create_board (-(off + ((j : ℚ) + 1) * L.offset_step)) = .ok (some b2) ∧
          t[2 * j]? = some (some b) ∧ t[2 * j + 1]? = some (some b2)) ∧
        (L.try_create_board (off + ((m : ℚ) + 1) * L.offset_step) = .ok none ∨
          ∃ b, L.try_create_board (off + ((m : ℚ) + 1) * L.offset_step) = .ok (some b) ∧
            L.try_create_board (-(off + ((m : ℚ) + 1) * L.offset_step)) = .ok none) := by
  intro n
  induction n with
  | zero =>
    intro off acc res h
    exact absurd h (by simp [Layout.calcLoop])
  | succ n ih =>
    intro off acc res h
    unfold Layout.calcLoop at h
    have e0 : off + (((0 : ℕ) : ℚ) + 1) * L.offset_step = off + L.offset_step := by
      push_cast
      ring
    cases h1 : L.try_create_board (off + L.offset_step) with
    | error e =>
      rw [h1] at h
      simp at h
    | ok b =>
      rw [h1] at h
      cases b with
      | none =>
        simp only [except_bind_ok, except_pure, Except.ok.injEq, Option.some.injEq] at h
        refine ⟨[], 0, by simp [h], rfl, fun j hj => absurd hj (Nat.not_lt_zero j), ?_⟩
        left
        rw [e0]
        exact h1
      | some b1 =>
        cases h2 : L.try_create_board (-(off + L.offset_step)) with
        | error e =>
          rw [h2] at h
          simp at h
        | ok b2 =>
          rw [h2] at h
          cases b2 with
          | none =>
            simp only [except_bind_ok, except_pure, Except.ok.injEq, Option.some.injEq] at h
            refine ⟨[], 0, by simp [h], rfl, fun j hj => absurd hj (Nat.not_lt_zero j), ?_⟩
            right
            refine ⟨b1, ?_, ?_⟩
            · rw [e0]
              exact h1
            · rw [e0]
              exact h2
          | some b2 =>
            simp only [except_bind_ok] at h
            obtain ⟨t', m', hres, hlen, hpairs, hterm⟩ :=
              ih (off + L.offset_step) (acc ++ [some b1, some b2]) res h
            refine ⟨[some b1, some b2] ++ t', m' + 1, ?_, ?_, ?_, ?_⟩
            · rw [hres]
              simp [List.append_assoc]
            · simp only [List.length_append, List.length_cons, List.length_nil, hlen]
              omega
            · intro j hj
              cases j with
              | zero =>
                refine ⟨b1, b2, ?_, ?_, by simp, by simp⟩
                · rw [e0]
                  exact h1
                · rw [e0]
                  exact h2
              | succ j =>
                have hj' : j < m' := by omega
                obtain ⟨b, b2', hb, hb2, hg1, hg2⟩ := hpairs j hj'
                refine ⟨b, b2', ?_, ?_, ?_, ?_⟩
                · have e : off + (((j + 1 : ℕ) : ℚ) + 1) * L.offset_step =
                      off + L.offset_step + (((j : ℕ) : ℚ) + 1) * L.offset_step := by
                    push_cast
                    ring
                  rw [e]
                  exact hb
                · have e : -(off + (((j + 1 : ℕ) : ℚ) + 1) * L.offset_step) =
                      -(off + L.offset_step + (((j : ℕ) : ℚ) + 1) * L.offset_step) := by
                    push_cast
                    ring
                  rw [e]
                  exact hb2
                · have e : 2 * (j + 1) = 2 * j + 1 + 1 := by ring
                  rw [e]
                  simpa using hg1
                · have e : 2 * (j + 1) + 1 = 2 * j + 1 + 1 + 1 := by ring
                  rw [e]
                  simpa using hg2
            · have e : off + (((m' + 1 : ℕ) : ℚ) + 1) * L.offset_step =
                  off + L.offset_step + (((m' : ℕ) : ℚ) + 1) * L.offset_step := by
                push_cast
                ring
              rw [e]
              exact hterm

/-- Witness for C7: the concrete even run on the 2 x 2 frame appends exactly
one symmetric pair and stops when the next candidate misses the frame. -/
theorem calcLoop_pairs_witness :
    ∃ (t : List (Option Board)) (m : ℕ),
      ([some [((0 : ℚ), (-1 : ℚ)), (1, -1), (1, -1), (1, -1), (1, 0)],
        some [((-1 : ℚ), (0 : ℚ)), (0, 1), (-1, 1), (-1, 1), (-1, 1)]] :
          List (Option Board)) = [] ++ t ∧
      t.length = 2 * m ∧
      (∀ j < m, ∃ b b2,
        (Layout.mk 2 2 1 3 (1 / 2)).try_create_board
          (-3 / 2 + ((j : ℚ) + 1) * (Layout.mk 2 2 1 3 (1 / 2)).offset_step) =
            .ok (some b) ∧
        (Layout.mk 2 2 1 3 (1 / 2)).try_create_board
          (-(-3 / 2 + ((j : ℚ) + 1) * (Layout.mk 2 2 1 3 (1 / 2)).offset_step)) =
            .ok (some b2) ∧
        t[2 * j]? = some (some b) ∧ t[2 * j + 1]? = some (some b2)) ∧
      ((Layout.mk 2 2 1 3 (1 / 2)).try_create_board
          (-3 / 2 + ((m : ℚ) + 1) * (Layout.mk 2 2 1 3 (1 / 2)).offset_step) =
            .ok none ∨
        ∃ b, (Layout.mk 2 2 1 3 (1 / 2)).try_create_board
            (-3 / 2 + ((m : ℚ) + 1) * (Layout.mk 2 2 1 3 (1 / 2)).offset_step) =
              .ok (some b) ∧
          (Layout.mk 2 2 1 3 (1 / 2)).try_create_board
            (-(-3 / 2 + ((m : ℚ) + 1) * (Layout.mk 2 2 1 3 (1 / 2)).offset_step)) =
              .ok none) :=
  calcLoop_pairs (Layout.mk 2 2 1 3 (1 / 2)) 2 (-3 / 2) []
    [some [(0, -1), (1, -1), (1, -1), (1, -1), (1, 0)],
      some [(-1, 0), (0, 1), (-1, 1), (-1, 1), (-1, 1)]]
    (by with_unfolding_all decide)

/-! C4: the board set is symmetric under point reflection through the
origin, not under the x-mirror. -/

theorem is_point_between_neg (s o bw : ℚ) (c : Point) :
    (TiltedLine.init s (-o - bw)).is_point_between_lines c
        (TiltedLine.init s (-o + bw)) =
      (TiltedLine.init s (o - bw)).is_point_between_lines (negPt c)
        (TiltedLine.init s (o + bw)) := by
  simp only [TiltedLine.is_point_between_lines, TiltedLine.init, negPt]
  rw [decide_eq_decide]
  simp only [min_le_iff, le_max_iff]
  constructor <;> rintro ⟨h1 | h1, h2 | h2⟩ <;>
    refine ⟨?_, ?_⟩ <;>
    first
      | exact Or.inl (by linarith)
      | exact Or.inr (by linarith)

theorem negPt_negPt (c : Point) : negPt (negPt c) = c := by
  simp [negPt]

theorem map_negPt_negPt (l : Board) : (l.map negPt).map negPt = l := by
  rw [List.map_map]
  have h : negPt ∘ negPt = id := funext negPt_negPt
  rw [h, List.map_id]

theorem cornersBetween_neg (L : Layout) (s o bw : ℚ) :
    (L.cornersBetween (TiltedLine.init s (-o - bw))
        (TiltedLine.init s (-o + bw))).Perm
      ((L.cornersBetween (TiltedLine.init s (o - bw))
        (TiltedLine.init s (o + bw))).map negPt) := by
  unfold Layout.cornersBetween
  have hmap : [L.frame.p0, L.frame.p1, L.frame.p2, L.frame.p3].map negPt =
      [L.frame.p2, L.frame.p3, L.frame.p0, L.frame.p1] := by
    simp [Layout.frame, negPt, neg_div, Prod.ext_iff]
  have hrot : ([L.frame.p0, L.frame.p1, L.frame.p2, L.frame.p3] : List Point).Perm
      [L.frame.p2, L.frame.p3, L.frame.p0, L.frame.p1] :=
    @List.perm_append_comm _ [L.frame.p0, L.frame.p1] [L.frame.p2, L.frame.p3]
  refine List.Perm.trans (List.Perm.filter _ hrot) ?_
  rw [← hmap, List.filter_map]
  have hcongr : ∀ c ∈ [L.frame.p0, L.frame.p1, L.frame.p2, L.frame.p3],
      ((TiltedLine.init s (-o - bw)).is_point_between_lines (negPt c)
        (TiltedLine.init s (-o + bw))) =
      ((TiltedLine.init s (o - bw)).is_point_between_lines c
        (TiltedLine.init s (o + bw))) := by
    intro c _
    rw [is_point_between_neg s o bw (negPt c), negPt_negPt]
  have hfil : List.filter
      ((fun corner => (TiltedLine.init s (-o - bw)).is_point_between_lines corner
        (TiltedLine.init s (-o + bw))) ∘ negPt)
      [L.frame.p0, L.frame.p1, L.frame.p2, L.frame.p3] =
    List.filter
      (fun corner => (TiltedLine.init s (o - bw)).is_point_between_lines corner
        (TiltedLine.init s (o + bw)))
      [L.frame.p0, L.frame.p1, L.frame.p2, L.frame.p3] :=
    List.filter_congr (fun c hc => by simpa using hcongr c hc)
  rw [hfil]

/-- Candidate boards at opposite offsets succeed or fail together, and on
success the board at `-offset` is a permutation of the point reflection of
the board at `+offset`. -/
theorem try_create_board_neg (L : Layout) (hs : L.slope ≠ 0) (hw : 0 < L.width)
    (hh : 0 < L.height) (offset : ℚ) :
    (L.try_create_board offset = .ok none ∧
      L.try_create_board (-offset) = .ok none) ∨
    ∃ b b2, L.try_create_board offset = .ok (some b) ∧
      L.try_create_board (-offset) = .ok (some b2) ∧
      b2.Perm (b.map negPt) := by
  have hF1 := intersect_frame_init_closed L.slope (offset - L.board_x_half_width) L hs hw hh
  have hF2 := intersect_frame_init_closed L.slope (offset + L.board_x_half_width) L hs hw hh
  have hF1' := intersect_frame_init_closed L.slope (-offset - L.board_x_half_width) L hs hw hh
  have hF2' := intersect_frame_init_closed L.slope (-offset + L.board_x_half_width) L hs hw hh
  have e1 : -L.slope * (-offset - L.board_x_half_width) =
      -(-L.slope * (offset + L.board_x_half_width)) := by ring
  have e2 : -L.slope * (-offset + L.board_x_half_width) =
      -(-L.slope * (offset - L.board_x_half_width)) := by ring
  rw [e1] at hF1'
  rw [e2] at hF2'
  have hp1 : (frameHits L.slope (-(-L.slope * (offset + L.board_x_half_width)))
      L.width L.height).Perm
      ((frameHits L.slope (-L.slope * (offset + L.board_x_half_width))
        L.width L.height).map negPt) := frameHits_neg _ _ _ _
  have hp2 : (frameHits L.slope (-(-L.slope * (offset - L.board_x_half_width)))
      L.width L.height).Perm
      ((frameHits L.slope (-L.slope * (offset - L.board_x_half_width))
        L.width L.height).map negPt) := frameHits_neg _ _ _ _
  simp only [Layout.try_create_board]
  rw [hF1, hF2, hF1', hF2']
  simp only [except_bind_ok]
  by_cases hc : (frameHits L.slope (-L.slope * (offset - L.board_x_half_width))
        L.width L.height).length = 0 ∧
      (frameHits L.slope (-L.slope * (offset + L.board_x_half_width))
        L.width L.height).length = 0
  · left
    have hc1' : (frameHits L.slope (-(-L.slope * (offset + L.board_x_half_width)))
        L.width L.height).length = 0 := by
      rw [hp1.length_eq, List.length_map]
      exact hc.2
    have hc2' : (frameHits L.slope (-(-L.slope * (offset - L.board_x_half_width)))
        L.width L.height).length = 0 := by
      rw [hp2.length_eq, List.length_map]
      exact hc.1
    rw [if_pos hc, if_pos ⟨hc1', hc2'⟩]
    exact ⟨rfl, rfl⟩
  · right
    have hc' : ¬((frameHits L.slope (-(-L.slope * (offset + L.board_x_half_width)))
          L.width L.height).length = 0 ∧
        (frameHits L.slope (-(-L.slope * (offset - L.board_x_half_width)))
          L.width L.height).length = 0) := by
      rintro ⟨h1', h2'⟩
      refine hc ⟨?_, ?_⟩
      · rw [hp2.length_eq, List.length_map] at h2'
        exact h2'
      · rw [hp1.length_eq, List.length_map] at h1'
        exact h1'
    rw [if_neg hc, if_neg hc']
    refine ⟨_, _, rfl, rfl, ?_⟩
    have hK' := List.perm_insertionSort (angLE (-offset, 0))
      (L.cornersBetween (TiltedLine.init L.slope (-offset - L.board_x_half_width))
          (TiltedLine.init L.slope (-offset + L.board_x_half_width)) ++
        frameHits L.slope (-(-L.slope * (offset + L.board_x_half_width))) L.width L.height ++
        frameHits L.slope (-(-L.slope * (offset - L.board_x_half_width))) L.width L.height)
    have hcor := cornersBetween_neg L L.slope offset L.board_x_half_width
    have happ := (hcor.append hp1).append hp2
    have hK : ((L.sort_board_points
        (L.cornersBetween (TiltedLine.init L.slope (offset - L.board_x_half_width))
            (TiltedLine.init L.slope (offset + L.board_x_half_width)) ++
          frameHits L.slope (-L.slope * (offset - L.board_x_half_width)) L.width L.height ++
          frameHits L.slope (-L.slope * (offset + L.board_x_half_width)) L.width L.height)
        (offset, 0)).map negPt).Perm
        ((L.cornersBetween (TiltedLine.init L.slope (offset - L.board_x_half_width))
            (TiltedLine.init L.slope (offset + L.board_x_half_width))).map negPt ++
          (frameHits L.slope (-L.slope * (offset - L.board_x_half_width))
            L.width L.height).map negPt ++
          (frameHits L.slope (-L.slope * (offset + L.board_x_half_width))
            L.width L.height).map negPt) := by
      have hbase := (List.perm_insertionSort (angLE (offset, 0))
        (L.cornersBetween (TiltedLine.init L.slope (offset - L.board_x_half_width))
            (TiltedLine.init L.slope (offset + L.board_x_half_width)) ++
          frameHits L.slope (-L.slope * (offset - L.board_x_half_width)) L.width L.height ++
          frameHits L.slope (-L.slope * (offset + L.board_x_half_width)) L.width L.height)).map
        negPt
      simpa [List.map_append] using hbase
    have hswap : ((L.cornersBetween (TiltedLine.init L.slope (offset - L.board_x_half_width))
          (TiltedLine.init L.slope (offset + L.board_x_half_width))).map negPt ++
        (frameHits L.slope (-L.slope * (offset + L.board_x_half_width))
          L.width L.height).map negPt ++
        (frameHits L.slope (-L.slope * (offset - L.board_x_half_width))
          L.width L.height).map negPt).Perm
        ((L.cornersBetween (TiltedLine.init L.slope (offset - L.board_x_half_width))
          (TiltedLine.init L.slope (offset + L.board_x_half_width))).map negPt ++
        (frameHits L.slope (-L.slope * (offset - L.board_x_half_width))
          L.width L.height).map negPt ++
        (frameHits L.slope (-L.slope * (offset + L.board_x_half_width))
          L.width L.height).map negPt) := by
      rw [List.append_assoc, List.append_assoc]
      exact List.Perm.append_left _ List.perm_append_comm
    exact (hK'.trans (happ.trans hswap)).trans hK.symm

theorem calcLoop_neg_closed (L : Layout) (hs : L.slope ≠ 0) (hw : 0 < L.width)
    (hh : 0 < L.height) :
    ∀ (n : ℕ) (off : ℚ) (acc res : List (Option Board)),
      (∀ b : Board, some b ∈ acc → ∃ b2, some b2 ∈ acc ∧ b2.Perm (b.map negPt)) →
      L.calcLoop n off acc = .ok (some res) →
      ∀ b, some b ∈ res → ∃ b2, some b2 ∈ res ∧ b2.Perm (b.map negPt) := by
  intro n
  induction n with
  | zero =>
    intro off acc res _ h
    exact absurd h (by simp [Layout.calcLoop])
  | succ n ih =>
    intro off acc res hacc h
    unfold Layout.calcLoop at h
    cases h1 : L.try_create_board (off + L.offset_step) with
    | error e =>
      rw [h1] at h
      simp at h
    | ok b =>
      rw [h1] at h
      cases b with
      | none =>
        simp only [except_bind_ok, except_pure, Except.ok.injEq, Option.some.injEq] at h
        rw [← h]
        exact hacc
      | some b1 =>
        cases h2 : L.try_create_board (-(off + L.offset_step)) with
        | error e =>
          rw [h2] at h
          simp at h
        | ok b2 =>
          rw [h2] at h
          cases b2 with
          | none =>
            simp only [except_bind_ok, except_pure, Except.ok.injEq, Option.some.injEq] at h
            rw [← h]
            exact hacc
          | some b2 =>
            simp only [except_bind_ok] at h
            refine ih (off + L.offset_step) (acc ++ [some b1, some b2]) res ?_ h
            have hpair : b2.Perm (b1.map negPt) := by
              rcases try_create_board_neg L hs hw hh (off + L.offset_step) with
                ⟨hn1, _⟩ | ⟨bb, bb2, hbb1, hbb2, hp⟩
              · rw [h1] at hn1
                exact absurd hn1 (by simp)
              · rw [h1] at hbb1
                rw [h2] at hbb2
                have eb : bb = b1 := by
                  injection hbb1 with hbb1'
                  injection hbb1' with hbb1''
                  exact hbb1''.symm
                have eb2 : bb2 = b2 := by
                  injection hbb2 with hbb2'
                  injection hbb2' with hbb2''
                  exact hbb2''.symm
                rw [← eb, ← eb2]
                exact hp
            intro b hb
            rcases List.mem_append.mp hb with hb | hb
            · obtain ⟨bp, hbp, hbperm⟩ := hacc b hb
              exact ⟨bp, List.mem_append_left _ hbp, hbperm⟩
            · simp only [List.mem_cons, List.mem_singleton, List.not_mem_nil,
                or_false, Option.some.injEq] at hb
              rcases hb with rfl | rfl
              · exact ⟨b2, List.mem_append_right _ (by simp), hpair⟩
              · refine ⟨b1, List.mem_append_right _ (by simp), ?_⟩
                have hpm := hpair.map negPt
                rw [map_negPt_negPt] at hpm
                exact hpm.symm

/-- C4 (amended): the full board set produced by the generation phase is
symmetric under the point reflection (x, y) -> (-x, -y): for every board in
the produced list there is a board in the list (possibly itself, for the odd
variant's center board) whose vertex multiset is the point reflection of the
first board's vertices.  The reflection pairs a board at offset `o` with the
board at `-o`. -/
theorem calcBoards_point_symmetric (L : Layout) (hs : L.slope ≠ 0)
    (hw : 0 < L.width) (hh : 0 < L.height) (v : Variant) (n : ℕ)
    (res : List (Option Board)) (h : L.calcBoards v n = .ok (some res))
    (b : Board) (hb : some b ∈ res) :
    ∃ b2, some b2 ∈ res ∧ b2.Perm (b.map negPt) := by
  unfold Layout.calcBoards Layout.setup at h
  cases v with
  | even =>
    simp only [except_bind_ok] at h
    exact calcLoop_neg_closed L hs hw hh n _ [] res (by simp) h b hb
  | odd =>
    cases h0 : L.try_create_board 0 with
    | error e =>
      rw [h0] at h
      simp at h
    | ok r0 =>
      rw [h0] at h
      simp only [except_bind_ok, except_pure] at h
      refine calcLoop_neg_closed L hs hw hh n 0 [r0] res ?_ h b hb
      intro b0 hb0
      cases r0 with
      | none => simp at hb0
      | some bb0 =>
        simp only [List.mem_singleton, Option.some.injEq] at hb0
        subst hb0
        refine ⟨b0, by simp, ?_⟩
        rcases try_create_board_neg L hs hw hh 0 with ⟨hn1, _⟩ | ⟨bb, bb2, hbb1, hbb2, hp⟩
        · rw [h0] at hn1
          exact absurd hn1 (by simp)
        · rw [neg_zero] at hbb2
          rw [h0] at hbb1 hbb2
          have eb : bb = b0 := by
            injection hbb1 with hbb1'
            injection hbb1' with hbb1''
            exact hbb1''.symm
          have eb2 : bb2 = b0 := by
            injection hbb2 with hbb2'
            injection hbb2' with hbb2''
            exact hbb2''.symm
          subst eb
          subst eb2
          exact hp

/-- Witness for C4 (amended): in the concrete even run, the reflected partner
of the first board is the second board. -/
theorem calcBoards_point_symmetric_witness :
    ∃ b2, (some b2 ∈
        ([some [((0 : ℚ), (-1 : ℚ)), (1, -1), (1, -1), (1, -1), (1, 0)],
          some [((-1 : ℚ), (0 : ℚ)), (0, 1), (-1, 1), (-1, 1), (-1, 1)]] :
            List (Option Board))) ∧
      b2.Perm (([((0 : ℚ), (-1 : ℚ)), (1, -1), (1, -1), (1, -1), (1, 0)] : Board).map negPt) :=
  calcBoards_point_symmetric (Layout.mk 2 2 1 3 (1 / 2))
    (by with_unfolding_all decide) (by with_unfolding_all decide)
    (by with_unfolding_all decide) .even 2 _
    (by with_unfolding_all decide) _ (by with_unfolding_all decide)

/-- Counterexample for C4 as frozen: the even run on the 2 x 2 frame produces
exactly two boards, and neither of them has the x-mirrored (x -> -x)
vertex multiset of the first board, so the board set is not symmetric under
the x-mirror; the true symmetry is the point reflection. -/
theorem boards_not_mirror_symmetric :
    (Layout.mk 2 2 1 3 (1 / 2)).calcBoards .even 2 =
      .ok (some [some [(0, -1), (1, -1), (1, -1), (1, -1), (1, 0)],
        some [(-1, 0), (0, 1), (-1, 1), (-1, 1), (-1, 1)]]) ∧
    ¬ (([((-1 : ℚ), (0 : ℚ)), (0, 1), (-1, 1), (-1, 1), (-1, 1)] : Board).Perm
        (([((0 : ℚ), (-1 : ℚ)), (1, -1), (1, -1), (1, -1), (1, 0)] : Board).map
          (fun p => (-p.1, p.2)))) ∧
    ¬ (([((0 : ℚ), (-1 : ℚ)), (1, -1), (1, -1), (1, -1), (1, 0)] : Board).Perm
        (([((0 : ℚ), (-1 : ℚ)), (1, -1), (1, -1), (1, -1), (1, 0)] : Board).map
          (fun p => (-p.1, p.2)))) := by
  refine ⟨by with_unfolding_all decide, by with_unfolding_all decide,
    by with_unfolding_all decide⟩
